import Mathlib

/-!
# Verification of the IDOCR extraction pipeline

Shallow embedding of the deterministic core of the IDOCR repository
(`helper.py`, `app.py`, `main.py`): the text repair utility
`fix_json_string`, the OCR preprocessor `preprocess_ocr_text`, the
response-parsing part of `parse_ocr_to_json`, and the two result
mergers `merge_ocr_results` (the Policy A variant of `app.py`/`main.py`
and the Policy B variant of `helper.py`).

Python strings are modelled as `List Char` (wrapped in `String` at the
statement boundary), Python dicts as association lists, and Python
values as the inductive `PyVal`.  Fallible code returns `Except`.
-/

namespace IDOCR

/-- The apostrophe character (written via its code point). -/
def quoteChar : Char := Char.ofNat 39

/-- The double-quote character (written via its code point). -/
def dquoteChar : Char := Char.ofNat 34

/-- Whitespace as recognized by Python's `str.strip` and by `\s` in the
`re` module on `str` inputs: ASCII whitespace, the information
separators, NEL, NBSP and the Unicode space/line/paragraph separators. -/
def isPySpace (c : Char) : Bool :=
  c.toNat == 32 || (decide (9 <= c.toNat) && decide (c.toNat <= 13)) ||
  c.toNat == 28 || c.toNat == 29 || c.toNat == 30 || c.toNat == 31 ||
  c.toNat == 133 || c.toNat == 160 || c.toNat == 5760 ||
  (decide (8192 <= c.toNat) && decide (c.toNat <= 8202)) ||
  c.toNat == 8232 || c.toNat == 8233 || c.toNat == 8239 ||
  c.toNat == 8287 || c.toNat == 12288

/-- `json_string.replace("'", '"')`: every apostrophe becomes a double quote. -/
def mapQuote (l : List Char) : List Char :=
  l.map (fun c => if c = quoteChar then dquoteChar else c)

/-- Drop leading Python whitespace (`str.lstrip`). -/
def lstripL (l : List Char) : List Char := l.dropWhile isPySpace

/-- Drop trailing Python whitespace (`str.rstrip`). -/
def rstripL (l : List Char) : List Char := ((l.reverse).dropWhile isPySpace).reverse

/-- Python `str.strip()`. -/
def pyStrip (l : List Char) : List Char := rstripL (lstripL l)

theorem dropWhile_length_le (p : Char → Bool) (l : List Char) :
    (l.dropWhile p).length ≤ l.length := by
  induction l with
  | nil => simp
  | cons c cs ih =>
    rw [List.dropWhile_cons]
    split
    · exact Nat.le_trans ih (Nat.le_succ _)
    · simp

/-- Worker for `re.sub(r'\s+', ' ', s)`.  The flag records whether the
previous character was whitespace (i.e. whether we are inside a run that
has already emitted its single space). -/
def collapseAux : List Char → Bool → List Char
  | [], _ => []
  | c :: cs, prev =>
    if isPySpace c then
      if prev then collapseAux cs true
      else ' ' :: collapseAux cs true
    else c :: collapseAux cs false

/-- `re.sub(r'\s+', ' ', s)`: collapse every maximal run of whitespace
to one space. -/
def collapseWS (l : List Char) : List Char := collapseAux l false

/-- `fix_json_string` of `helper.py` / `app.py` / `main.py` on character
lists: replace apostrophes by double quotes, then
`re.sub(r'\s+', ' ', json_string.strip())`. -/
def fix_json_stringL (l : List Char) : List Char :=
  collapseWS (pyStrip (mapQuote l))

/-- The Text Repair Utility `fix_json_string`. -/
def fix_json_string (s : String) : String :=
  String.mk (fix_json_stringL s.toList)

/-- The transformation exactly as §4.1 of the specification words it:
replace every single quote by a double quote, collapse every whitespace
run to a single space, then trim leading and trailing whitespace. -/
def fixJsonStringSpec (s : String) : String :=
  String.mk (pyStrip (collapseWS (mapQuote s.toList)))

/-! ### Elementary facts about the pieces of `fix_json_string` -/

theorem dropWhile_head_false (p : Char → Bool) :
    ∀ l : List Char, ∀ c ∈ (l.dropWhile p).head?, p c = false := by
  intro l
  induction l with
  | nil => simp
  | cons a as ih =>
    rw [List.dropWhile_cons]
    by_cases hp : p a = true
    · rw [if_pos hp]; exact ih
    · rw [if_neg hp]
      intro c hc
      simp only [List.head?_cons, Option.mem_def, Option.some.injEq] at hc
      rw [← hc]
      simpa using hp

theorem dropWhile_eq_self_of_head (p : Char → Bool) (l : List Char)
    (h : ∀ c ∈ l.head?, p c = false) : l.dropWhile p = l := by
  cases l with
  | nil => rfl
  | cons a as =>
    rw [List.dropWhile_cons]
    have := h a (by simp)
    simp [this]

theorem mem_of_mem_dropWhile (p : Char → Bool) {c : Char} {l : List Char}
    (h : c ∈ l.dropWhile p) : c ∈ l := by
  induction l with
  | nil => simp at h
  | cons a as ih =>
    rw [List.dropWhile_cons] at h
    by_cases hp : p a = true
    · rw [if_pos hp] at h
      exact List.mem_cons_of_mem _ (ih h)
    · rw [if_neg hp] at h
      exact h

theorem dropWhile_eq_nil_iff_all (p : Char → Bool) (l : List Char) :
    l.dropWhile p = [] ↔ ∀ c ∈ l, p c = true := by
  induction l with
  | nil => simp
  | cons a as ih =>
    rw [List.dropWhile_cons]
    by_cases hp : p a = true <;> simp [hp, ih]

theorem dropWhile_append_char (p : Char → Bool) (l₁ l₂ : List Char) :
    (l₁ ++ l₂).dropWhile p =
      if l₁.dropWhile p = [] then l₂.dropWhile p else l₁.dropWhile p ++ l₂ := by
  induction l₁ with
  | nil => simp
  | cons a as ih =>
    by_cases hp : p a = true
    · simpa [List.dropWhile_cons, hp] using ih
    · simp [List.dropWhile_cons, hp]

theorem getLast?_cons_ne_nil {α : Type} (c : α) {l : List α} (h : l ≠ []) :
    (c :: l).getLast? = l.getLast? := by
  cases l with
  | nil => exact absurd rfl h
  | cons b bs => exact List.getLast?_cons_cons

/-! ### `rstripL` structure lemmas -/

theorem rstripL_nil : rstripL [] = [] := rfl

theorem rstripL_cons_of_nonspace {c : Char} (cs : List Char) (hc : isPySpace c = false) :
    rstripL (c :: cs) = c :: rstripL cs := by
  unfold rstripL
  rw [List.reverse_cons, dropWhile_append_char]
  by_cases h : (cs.reverse).dropWhile isPySpace = []
  · simp [h, List.dropWhile_cons, hc]
  · simp [h]

theorem rstripL_cons_of_space {c : Char} (cs : List Char) (hc : isPySpace c = true) :
    rstripL (c :: cs) = if rstripL cs = [] then [] else c :: rstripL cs := by
  unfold rstripL
  rw [List.reverse_cons, dropWhile_append_char]
  by_cases h : (cs.reverse).dropWhile isPySpace = []
  · simp [h, List.dropWhile_cons, hc]
  · simp [h]

theorem rstripL_eq_nil_iff (l : List Char) :
    rstripL l = [] ↔ ∀ c ∈ l, isPySpace c = true := by
  unfold rstripL
  rw [List.reverse_eq_nil_iff, dropWhile_eq_nil_iff_all]
  simp

theorem rstripL_head? (l : List Char) (h : rstripL l ≠ []) :
    (rstripL l).head? = l.head? := by
  induction l with
  | nil => rfl
  | cons c cs ih =>
    by_cases hc : isPySpace c = true
    · rw [rstripL_cons_of_space cs hc] at h ⊢
      by_cases hcs : rstripL cs = []
      · rw [if_pos hcs] at h
        exact absurd rfl h
      · rw [if_neg hcs]
        simp
    · have hc' : isPySpace c = false := by simpa using hc
      rw [rstripL_cons_of_nonspace cs hc']
      simp

theorem rstripL_getLast (l : List Char) :
    ∀ c ∈ (rstripL l).getLast?, isPySpace c = false := by
  intro c hc
  unfold rstripL at hc
  rw [List.getLast?_reverse] at hc
  exact dropWhile_head_false isPySpace l.reverse c hc

theorem mem_rstripL {c : Char} {l : List Char} (h : c ∈ rstripL l) : c ∈ l := by
  unfold rstripL at h
  rw [List.mem_reverse] at h
  have := mem_of_mem_dropWhile isPySpace h
  simpa using this

theorem lstripL_rstripL_comm (l : List Char) :
    lstripL (rstripL l) = rstripL (lstripL l) := by
  induction l with
  | nil => rfl
  | cons c cs ih =>
    by_cases hc : isPySpace c = true
    · have hl : lstripL (c :: cs) = lstripL cs := by
        simp [lstripL, List.dropWhile_cons, hc]
      rw [rstripL_cons_of_space cs hc, hl]
      by_cases hcs : rstripL cs = []
      · rw [if_pos hcs]
        have hall : ∀ d ∈ cs, isPySpace d = true := (rstripL_eq_nil_iff cs).mp hcs
        have h1 : lstripL cs = [] := by
          simp only [lstripL, dropWhile_eq_nil_iff_all]
          exact hall
        rw [h1]
        rfl
      · rw [if_neg hcs]
        have hstep : lstripL (c :: rstripL cs) = lstripL (rstripL cs) := by
          simp [lstripL, List.dropWhile_cons, hc]
        rw [hstep, ih]
    · have hc' : isPySpace c = false := by simpa using hc
      have h1 : lstripL (c :: rstripL cs) = c :: rstripL cs := by
        simp [lstripL, List.dropWhile_cons, hc']
      have h2 : lstripL (c :: cs) = c :: cs := by
        simp [lstripL, List.dropWhile_cons, hc']
      rw [rstripL_cons_of_nonspace cs hc', h1, h2, rstripL_cons_of_nonspace cs hc']

/-! ### `collapseWS` structure lemmas -/

theorem collapseAux_true_head (l : List Char) :
    ∀ c ∈ (collapseAux l true).head?, isPySpace c = false := by
  induction l with
  | nil => simp [collapseAux]
  | cons a as ih =>
    rw [collapseAux]
    by_cases ha : isPySpace a = true
    · rw [if_pos ha, if_pos rfl]
      exact ih
    · rw [if_neg ha]
      intro c hc
      simp only [List.head?_cons, Option.mem_def, Option.some.injEq] at hc
      rw [← hc]
      simpa using ha

theorem collapseAux_true_eq_dropWhile (l : List Char) :
    collapseAux l true = collapseAux (l.dropWhile isPySpace) false := by
  induction l with
  | nil => simp [collapseAux]
  | cons a as ih =>
    rw [collapseAux, List.dropWhile_cons]
    by_cases ha : isPySpace a = true
    · rw [if_pos ha, if_pos rfl, if_pos ha]
      exact ih
    · rw [if_neg ha, if_neg ha, collapseAux, if_neg ha]

theorem collapseWS_cons (c : Char) (cs : List Char) :
    collapseWS (c :: cs) =
      if isPySpace c then ' ' :: collapseWS (cs.dropWhile isPySpace)
      else c :: collapseWS cs := by
  unfold collapseWS
  rw [collapseAux]
  by_cases hc : isPySpace c = true
  · rw [if_pos hc, if_pos hc, if_neg (by simp), collapseAux_true_eq_dropWhile]
  · rw [if_neg hc, if_neg hc]

theorem collapseWS_nil : collapseWS [] = [] := rfl

theorem collapseAux_ne_nil_false {l : List Char} (h : l ≠ []) :
    collapseAux l false ≠ [] := by
  cases l with
  | nil => exact absurd rfl h
  | cons c cs =>
    rw [collapseAux]
    by_cases hc : isPySpace c = true
    · rw [if_pos hc, if_neg (by simp)]
      simp
    · rw [if_neg hc]
      simp

theorem collapseWS_ne_nil {l : List Char} (h : l ≠ []) : collapseWS l ≠ [] :=
  collapseAux_ne_nil_false h

theorem collapseWS_head? (l : List Char) :
    (collapseWS l).head? = l.head?.map (fun c => if isPySpace c then ' ' else c) := by
  cases l with
  | nil => rfl
  | cons c cs =>
    unfold collapseWS
    rw [collapseAux]
    by_cases hc : isPySpace c = true
    · rw [if_pos hc, if_neg (by simp)]
      simp [hc]
    · rw [if_neg hc]
      simp only [List.head?_cons, Option.map_some']
      rw [if_neg hc]

theorem mem_collapseAux {c : Char} {l : List Char} :
    ∀ {b : Bool}, c ∈ collapseAux l b → c ∈ l ∨ c = ' ' := by
  induction l with
  | nil => intro b h; rw [collapseAux] at h; exact absurd h (by simp)
  | cons a as ih =>
    intro b h
    rw [collapseAux] at h
    by_cases ha : isPySpace a = true
    · rw [if_pos ha] at h
      cases b with
      | true =>
        rw [if_pos rfl] at h
        rcases ih h with h' | h'
        · exact Or.inl (List.mem_cons_of_mem _ h')
        · exact Or.inr h'
      | false =>
        rw [if_neg (by simp)] at h
        rcases List.mem_cons.mp h with h1 | h1
        · exact Or.inr h1
        · rcases ih h1 with h' | h'
          · exact Or.inl (List.mem_cons_of_mem _ h')
          · exact Or.inr h'
    · rw [if_neg ha] at h
      rcases List.mem_cons.mp h with h1 | h1
      · exact Or.inl (by simp [h1])
      · rcases ih h1 with h' | h'
        · exact Or.inl (List.mem_cons_of_mem _ h')
        · exact Or.inr h'

theorem collapseAux_ws_space {c : Char} {l : List Char} :
    ∀ {b : Bool}, c ∈ collapseAux l b → isPySpace c = true → c = ' ' := by
  induction l with
  | nil => intro b h _; rw [collapseAux] at h; exact absurd h (by simp)
  | cons a as ih =>
    intro b h hws
    rw [collapseAux] at h
    by_cases ha : isPySpace a = true
    · rw [if_pos ha] at h
      cases b with
      | true =>
        rw [if_pos rfl] at h
        exact ih h hws
      | false =>
        rw [if_neg (by simp)] at h
        rcases List.mem_cons.mp h with h1 | h1
        · exact h1
        · exact ih h1 hws
    · rw [if_neg ha] at h
      rcases List.mem_cons.mp h with h1 | h1
      · exact absurd (h1 ▸ hws) ha
      · exact ih h1 hws

theorem collapseAux_chain (l : List Char) :
    ∀ b : Bool, (collapseAux l b).Chain' (fun a b => ¬(isPySpace a = true ∧ isPySpace b = true)) := by
  induction l with
  | nil => intro b; rw [collapseAux]; exact List.chain'_nil
  | cons a as ih =>
    intro b
    rw [collapseAux]
    by_cases ha : isPySpace a = true
    · rw [if_pos ha]
      cases b with
      | true => rw [if_pos rfl]; exact ih true
      | false =>
        rw [if_neg (by simp), List.chain'_cons']
        refine ⟨?_, ih true⟩
        intro y hy hcon
        have := collapseAux_true_head as y hy
        rw [this] at hcon
        simp at hcon
    · rw [if_neg ha, List.chain'_cons']
      refine ⟨?_, ih false⟩
      intro y _ hcon
      exact ha hcon.1

theorem mem_collapseAux_of_nonws {c : Char} {l : List Char} (hc : isPySpace c = false) :
    c ∈ l → ∀ b : Bool, c ∈ collapseAux l b := by
  induction l with
  | nil => intro h; simp at h
  | cons a as ih =>
    intro h b
    rw [collapseAux]
    by_cases ha : isPySpace a = true
    · have hmem : c ∈ as := by
        rcases List.mem_cons.mp h with h1 | h1
        · rw [h1] at hc; rw [hc] at ha; exact absurd ha (by simp)
        · exact h1
      rw [if_pos ha]
      cases b with
      | true => rw [if_pos rfl]; exact ih hmem true
      | false => rw [if_neg (by simp)]; exact List.mem_cons_of_mem _ (ih hmem true)
    · rw [if_neg ha]
      rcases List.mem_cons.mp h with h1 | h1
      · exact h1 ▸ List.mem_cons_self _ _
      · exact List.mem_cons_of_mem _ (ih h1 false)

theorem collapseAux_true_allws {l : List Char} (h : ∀ c ∈ l, isPySpace c = true) :
    collapseAux l true = [] := by
  induction l with
  | nil => rfl
  | cons a as ih =>
    rw [collapseAux, if_pos (h a (by simp)), if_pos rfl]
    exact ih (fun c hc => h c (List.mem_cons_of_mem _ hc))

theorem collapseAux_getLast (l : List Char) :
    ∀ b : Bool, (∀ c ∈ l.getLast?, isPySpace c = false) →
    ∀ c ∈ (collapseAux l b).getLast?, isPySpace c = false := by
  induction l with
  | nil => intro b _ c hc; rw [collapseAux] at hc; simp at hc
  | cons a as ih =>
    intro b h c hc
    by_cases hasnil : as = []
    · subst hasnil
      have ha : isPySpace a = false := by
        have := h a (by simp [List.getLast?_singleton])
        exact this
      rw [collapseAux, if_neg (by simp [ha])] at hc
      rw [collapseAux] at hc
      simp only [List.getLast?_singleton, Option.mem_def, Option.some.injEq] at hc
      rw [← hc]
      exact ha
    · have htail : ∀ d ∈ as.getLast?, isPySpace d = false := by
        intro d hd
        apply h
        rw [getLast?_cons_ne_nil a hasnil]
        exact hd
      have hnonws : ∃ d ∈ as, isPySpace d = false := by
        have hne := List.getLast?_eq_getLast as hasnil
        refine ⟨as.getLast hasnil, List.getLast_mem _, ?_⟩
        exact htail _ (Option.mem_def.mpr hne)
      rw [collapseAux] at hc
      by_cases ha : isPySpace a = true
      · rw [if_pos ha] at hc
        cases b with
        | true =>
          rw [if_pos rfl] at hc
          exact ih true htail c hc
        | false =>
          rw [if_neg (by simp)] at hc
          obtain ⟨d, hd, hdws⟩ := hnonws
          have hnn : collapseAux as true ≠ [] := by
            intro hnil
            have := mem_collapseAux_of_nonws hdws hd true
            rw [hnil] at this
            simp at this
          rw [getLast?_cons_ne_nil ' ' hnn] at hc
          exact ih true htail c hc
      · rw [if_neg ha] at hc
        have hnn : collapseAux as false ≠ [] := collapseAux_ne_nil_false hasnil
        rw [getLast?_cons_ne_nil a hnn] at hc
        exact ih false htail c hc

theorem collapseWS_lstripL (l : List Char) :
    collapseWS (lstripL l) = lstripL (collapseWS l) := by
  cases l with
  | nil => rfl
  | cons c cs =>
    by_cases hc : isPySpace c = true
    · have h1 : lstripL (c :: cs) = lstripL cs := by
        simp [lstripL, List.dropWhile_cons, hc]
      have h3 : collapseWS (c :: cs) = ' ' :: collapseAux cs true := by
        unfold collapseWS
        rw [collapseAux, if_pos hc, if_neg (by simp)]
      rw [h1, h3]
      have h2 : lstripL (' ' :: collapseAux cs true) = collapseAux cs true := by
        have hstep : lstripL (' ' :: collapseAux cs true) = lstripL (collapseAux cs true) := by
          simp [lstripL, List.dropWhile_cons, show isPySpace ' ' = true by decide]
        rw [hstep]
        exact dropWhile_eq_self_of_head isPySpace _ (collapseAux_true_head cs)
      rw [h2, collapseAux_true_eq_dropWhile]
      rfl
    · have hc' : isPySpace c = false := by simpa using hc
      have h1 : lstripL (c :: cs) = c :: cs := by
        simp [lstripL, List.dropWhile_cons, hc']
      have h3 : collapseWS (c :: cs) = c :: collapseAux cs false := by
        unfold collapseWS
        rw [collapseAux, if_neg hc]
      rw [h1, h3]
      have h4 : lstripL (c :: collapseAux cs false) = c :: collapseAux cs false := by
        simp [lstripL, List.dropWhile_cons, hc']
      rw [h4]

theorem collapseWS_rstripL_aux : ∀ n : Nat, ∀ l : List Char, l.length ≤ n →
    collapseWS (rstripL l) = rstripL (collapseWS l) := by
  intro n
  induction n with
  | zero =>
    intro l hl
    have hnil : l = [] := List.eq_nil_of_length_eq_zero (Nat.le_zero.mp hl)
    subst hnil
    rfl
  | succ n ih =>
    intro l hl
    cases l with
    | nil => rfl
    | cons c cs =>
      have hl' : cs.length ≤ n := by
        simp only [List.length_cons] at hl
        omega
      by_cases hc : isPySpace c = true
      · by_cases hcs : rstripL cs = []
        · rw [rstripL_cons_of_space cs hc, if_pos hcs]
          have hall : ∀ d ∈ cs, isPySpace d = true := (rstripL_eq_nil_iff cs).mp hcs
          have h3 : collapseWS (c :: cs) = [' '] := by
            unfold collapseWS
            rw [collapseAux, if_pos hc, if_neg (by simp), collapseAux_true_allws hall]
          rw [h3]
          decide
        · rw [rstripL_cons_of_space cs hc, if_neg hcs]
          have h3 : collapseWS (c :: rstripL cs) = ' ' :: collapseAux (rstripL cs) true := by
            unfold collapseWS
            rw [collapseAux, if_pos hc, if_neg (by simp)]
          have h7 : collapseWS (c :: cs) = ' ' :: collapseAux cs true := by
            unfold collapseWS
            rw [collapseAux, if_pos hc, if_neg (by simp)]
          rw [h3, h7, collapseAux_true_eq_dropWhile (rstripL cs),
             collapseAux_true_eq_dropWhile cs]
          have h4 : (rstripL cs).dropWhile isPySpace = rstripL (lstripL cs) :=
            lstripL_rstripL_comm cs
          rw [h4]
          have hXne : rstripL (collapseAux (cs.dropWhile isPySpace) false) ≠ [] := by
            have hnonws : ∃ d ∈ cs, isPySpace d = false := by
              by_contra hno
              push_neg at hno
              refine hcs ((rstripL_eq_nil_iff cs).mpr ?_)
              intro d hd
              have := hno d hd
              simpa using this
            obtain ⟨d, hd, hdws⟩ := hnonws
            intro hnil
            have hd2 : d ∈ cs.takeWhile isPySpace ++ cs.dropWhile isPySpace := by
              rw [List.takeWhile_append_dropWhile]
              exact hd
            have hdmem : d ∈ cs.dropWhile isPySpace := by
              rcases List.mem_append.mp hd2 with h | h
              · have := List.mem_takeWhile_imp h
                rw [hdws] at this
                simp at this
              · exact h
            have hmem : d ∈ collapseAux (cs.dropWhile isPySpace) false :=
              mem_collapseAux_of_nonws hdws hdmem false
            have := (rstripL_eq_nil_iff _).mp hnil d hmem
            rw [hdws] at this
            simp at this
          rw [rstripL_cons_of_space _ (by decide), if_neg hXne]
          have h5 : (lstripL cs).length ≤ n :=
            le_trans (dropWhile_length_le isPySpace cs) hl'
          have h6 := ih (lstripL cs) h5
          unfold collapseWS at h6
          show ' ' :: collapseAux (rstripL (lstripL cs)) false = _
          rw [h6]
          rfl
      · have hc' : isPySpace c = false := by simpa using hc
        rw [rstripL_cons_of_nonspace cs hc']
        have h3 : collapseWS (c :: rstripL cs) = c :: collapseAux (rstripL cs) false := by
          unfold collapseWS
          rw [collapseAux, if_neg hc]
        have h7 : collapseWS (c :: cs) = c :: collapseAux cs false := by
          unfold collapseWS
          rw [collapseAux, if_neg hc]
        rw [h3, h7, rstripL_cons_of_nonspace _ hc']
        have h6 := ih cs hl'
        unfold collapseWS at h6
        rw [h6]

theorem collapseWS_rstripL (l : List Char) :
    collapseWS (rstripL l) = rstripL (collapseWS l) :=
  collapseWS_rstripL_aux l.length l le_rfl

/-! ### Facts about `mapQuote` and `pyStrip` -/

theorem mapQuote_noquote (l : List Char) : quoteChar ∉ mapQuote l := by
  intro h
  unfold mapQuote at h
  rcases List.mem_map.mp h with ⟨c, _, hc⟩
  by_cases hq : c = quoteChar
  · rw [if_pos hq] at hc
    exact absurd hc (by decide)
  · rw [if_neg hq] at hc
    exact hq hc

theorem mapQuote_eq_self {l : List Char} (h : quoteChar ∉ l) : mapQuote l = l := by
  induction l with
  | nil => rfl
  | cons c cs ih =>
    unfold mapQuote
    simp only [List.map_cons]
    have hc : c ≠ quoteChar := by
      intro hq
      exact h (by simp [hq])
    rw [if_neg hc]
    have := ih (fun hm => h (List.mem_cons_of_mem _ hm))
    unfold mapQuote at this
    rw [this]

theorem mem_pyStrip {c : Char} {l : List Char} (h : c ∈ pyStrip l) : c ∈ l := by
  unfold pyStrip at h
  have h1 : c ∈ lstripL l := mem_rstripL h
  exact mem_of_mem_dropWhile isPySpace h1

theorem pyStrip_head (l : List Char) :
    ∀ c ∈ (pyStrip l).head?, isPySpace c = false := by
  intro c hc
  unfold pyStrip at hc
  by_cases h : rstripL (lstripL l) = []
  · rw [h] at hc
    simp at hc
  · rw [rstripL_head? _ h] at hc
    exact dropWhile_head_false isPySpace l c hc

theorem pyStrip_getLast (l : List Char) :
    ∀ c ∈ (pyStrip l).getLast?, isPySpace c = false :=
  rstripL_getLast (lstripL l)

theorem lstripL_eq_self {l : List Char} (h : ∀ c ∈ l.head?, isPySpace c = false) :
    lstripL l = l :=
  dropWhile_eq_self_of_head isPySpace l h

theorem rstripL_eq_self {l : List Char} (h : ∀ c ∈ l.getLast?, isPySpace c = false) :
    rstripL l = l := by
  unfold rstripL
  rw [dropWhile_eq_self_of_head isPySpace l.reverse
    (by rw [List.head?_reverse]; exact h), List.reverse_reverse]

/-! ### Properties of the output of `fix_json_string` -/

theorem fixL_noquote (l : List Char) : quoteChar ∉ fix_json_stringL l := by
  intro h
  unfold fix_json_stringL collapseWS at h
  rcases mem_collapseAux h with h1 | h1
  · exact mapQuote_noquote l (mem_pyStrip h1)
  · exact absurd h1 (by decide)

theorem fixL_ws_space (l : List Char) :
    ∀ c ∈ fix_json_stringL l, isPySpace c = true → c = ' ' := by
  intro c hc hws
  unfold fix_json_stringL collapseWS at hc
  exact collapseAux_ws_space hc hws

theorem fixL_chain (l : List Char) :
    (fix_json_stringL l).Chain' (fun a b => ¬(isPySpace a = true ∧ isPySpace b = true)) :=
  collapseAux_chain (pyStrip (mapQuote l)) false

theorem fixL_head (l : List Char) :
    ∀ c ∈ (fix_json_stringL l).head?, isPySpace c = false := by
  intro c hc
  unfold fix_json_stringL at hc
  rw [collapseWS_head?] at hc
  rcases Option.map_eq_some'.mp (Option.mem_def.mp hc) with ⟨d, hd, hde⟩
  have hdf : isPySpace d = false := pyStrip_head (mapQuote l) d (Option.mem_def.mpr hd)
  rw [← hde, if_neg (by simp [hdf])]
  exact hdf

theorem fixL_getLast (l : List Char) :
    ∀ c ∈ (fix_json_stringL l).getLast?, isPySpace c = false := by
  unfold fix_json_stringL collapseWS
  exact collapseAux_getLast _ false (pyStrip_getLast (mapQuote l))

theorem collapseWS_eq_self : ∀ l : List Char,
    (∀ c ∈ l, isPySpace c = true → c = ' ') →
    (l.Chain' fun a b => ¬(isPySpace a = true ∧ isPySpace b = true)) →
    collapseWS l = l := by
  intro l
  induction l with
  | nil => intro _ _; rfl
  | cons c cs ih =>
    intro h1 h2
    have ih' := ih (fun d hd h => h1 d (List.mem_cons_of_mem _ hd) h)
      (List.chain'_cons'.mp h2).2
    unfold collapseWS at ih' ⊢
    rw [collapseAux]
    by_cases hc : isPySpace c = true
    · rw [if_pos hc, if_neg (by simp)]
      have hcsp : c = ' ' := h1 c (by simp) hc
      have hstep : collapseAux cs true = collapseAux cs false := by
        cases cs with
        | nil => rfl
        | cons d ds =>
          have hd : isPySpace d = false := by
            have h3 := (List.chain'_cons'.mp h2).1 d (by simp)
            cases hb : isPySpace d
            · rfl
            · exact absurd ⟨hc, hb⟩ h3
          rw [collapseAux, collapseAux, if_neg (by simp [hd]), if_neg (by simp [hd])]
      rw [hstep, ih', hcsp]
    · rw [if_neg hc, ih']

theorem fix_json_string_toList (s : String) :
    (fix_json_string s).toList = fix_json_stringL s.toList := rfl

theorem fixL_idem (l : List Char) :
    fix_json_stringL (fix_json_stringL l) = fix_json_stringL l := by
  have h1 : mapQuote (fix_json_stringL l) = fix_json_stringL l :=
    mapQuote_eq_self (fixL_noquote l)
  have h2 : pyStrip (fix_json_stringL l) = fix_json_stringL l := by
    unfold pyStrip
    rw [lstripL_eq_self (fixL_head l), rstripL_eq_self (fixL_getLast l)]
  have h3 : collapseWS (fix_json_stringL l) = fix_json_stringL l :=
    collapseWS_eq_self _ (fixL_ws_space l) (fixL_chain l)
  show collapseWS (pyStrip (mapQuote (fix_json_stringL l))) = fix_json_stringL l
  rw [h1, h2, h3]

/-- C5: for every input string, the Text Repair Utility returns exactly the
string described by the specification: every single quote replaced by a
double quote, every whitespace run (newlines included) collapsed to one
space, and the result trimmed of leading and trailing whitespace.  It is a
pure function (modelled as such), so it performs no parsing and has no side
effects. -/
theorem fix_json_string_matches_spec (s : String) :
    fix_json_string s = fixJsonStringSpec s := by
  unfold fix_json_string fixJsonStringSpec fix_json_stringL
  have key : collapseWS (pyStrip (mapQuote s.toList)) =
      pyStrip (collapseWS (mapQuote s.toList)) := by
    unfold pyStrip
    rw [collapseWS_rstripL (lstripL (mapQuote s.toList)), collapseWS_lstripL]
  rw [key]

/-- C7: the Text Repair Utility is idempotent on every input string that
contains no apostrophe: applying it twice yields the same string as
applying it once. -/
theorem fix_json_string_idempotent (s : String) (_h : quoteChar ∉ s.toList) :
    fix_json_string (fix_json_string s) = fix_json_string s := by
  show String.mk (fix_json_stringL (String.mk (fix_json_stringL s.toList)).toList) =
    String.mk (fix_json_stringL s.toList)
  have hdata : (String.mk (fix_json_stringL s.toList)).toList = fix_json_stringL s.toList := rfl
  rw [hdata, fixL_idem]

/-- Witness for C7 at the concrete apostrophe-free input `"ab  c"`. -/
theorem fix_json_string_idempotent_witness :
    quoteChar ∉ "ab  c".toList ∧
    fix_json_string (fix_json_string "ab  c") = fix_json_string "ab  c" :=
  ⟨by decide, fix_json_string_idempotent "ab  c" (by decide)⟩

/-- C10: for every input string, the output of the Text Repair Utility
contains no single-quote character and no newline; every whitespace
character of the output is the plain space, no two adjacent characters are
both spaces, and the output neither starts nor ends with whitespace. -/
theorem fix_json_string_output_normalized (s : String) :
    quoteChar ∉ (fix_json_string s).toList ∧
    '\n' ∉ (fix_json_string s).toList ∧
    (∀ c ∈ (fix_json_string s).toList, isPySpace c = true → c = ' ') ∧
    ((fix_json_string s).toList.Chain' fun a b => ¬(a = ' ' ∧ b = ' ')) ∧
    (∀ c ∈ (fix_json_string s).toList.head?, isPySpace c = false) ∧
    (∀ c ∈ (fix_json_string s).toList.getLast?, isPySpace c = false) := by
  rw [fix_json_string_toList]
  refine ⟨fixL_noquote s.toList, ?_, fixL_ws_space s.toList, ?_,
    fixL_head s.toList, fixL_getLast s.toList⟩
  · intro h
    have := fixL_ws_space s.toList '\n' h (by decide)
    exact absurd this (by decide)
  · refine (fixL_chain s.toList).imp ?_
    intro a b hab ⟨ha, hb⟩
    exact hab ⟨by rw [ha]; decide, by rw [hb]; decide⟩

/-! ## Python values and dictionaries -/

/-- A model of the Python/JSON values flowing through the pipeline. -/
inductive PyVal where
  | VNone : PyVal
  | VBool : Bool → PyVal
  | VNum : Int → PyVal
  | VStr : String → PyVal
  | VList : List PyVal → PyVal
  | VDict : List (String × PyVal) → PyVal

/-- A Python dict with string keys, as an association list (keys unique in
practice; lookup takes the first match). -/
def PyDict := List (String × PyVal)

/-- Association-list lookup, modelling Python dict indexing. -/
def dlookup : PyDict → String → Option PyVal
  | [], _ => none
  | (k, v) :: rest, key => if k = key then some v else dlookup rest key

/-- Python `dict.get(key, default)`. -/
def dget (d : PyDict) (key : String) (dflt : PyVal) : PyVal :=
  (dlookup d key).getD dflt

/-- Python truthiness of a value (`if not x`). -/
def truthy : PyVal → Bool
  | PyVal.VNone => false
  | PyVal.VBool b => b
  | PyVal.VNum n => n != 0
  | PyVal.VStr s => s != ""
  | PyVal.VList l => !l.isEmpty
  | PyVal.VDict d => !d.isEmpty

/-- Python `a or b`: the first operand when truthy, otherwise the second. -/
def pyOr (a b : PyVal) : PyVal := if truthy a then a else b

/-- Python subscripting `d[key]`: a `KeyError` when the key is absent. -/
def subscriptDict (d : PyDict) (key : String) : Except String PyVal :=
  match dlookup d key with
  | some v => Except.ok v
  | none => Except.error ("KeyError: " ++ key)

/-- Calling `.get` on a value requires it to be a dict; anything else
raises an `AttributeError`. -/
def asDict : PyVal → Except String PyDict
  | PyVal.VDict d => Except.ok d
  | _ => Except.error "AttributeError"

/-- `merge_ocr_results` of `helper.py` (lines 290–311), the Policy B
merger: `place_of_residence`, `date_of_expiry` use front-then-back `or`
fallbacks, `place_of_birth` falls back from back to the front
`place_of_origin`, `nationality` defaults to the literal when the key is
absent, `date_of_issue` comes from the back, everything else from the
front.  An uncaught `KeyError`/`AttributeError` is an `Except.error`. -/
def merge_ocr_results_helper (front_result back_result : PyDict) : Except String PyDict :=
  if !truthy (dget front_result "success" PyVal.VNone) ||
     !truthy (dget back_result "success" PyVal.VNone) then
    Except.ok [("success", PyVal.VBool false),
               ("error", PyVal.VStr "Một hoặc cả hai quá trình OCR thất bại")]
  else do
    let fdv ← subscriptDict front_result "data"
    let fd ← asDict fdv
    let bdv ← subscriptDict back_result "data"
    let bd ← asDict bdv
    Except.ok [("success", PyVal.VBool true),
      ("document_type", PyVal.VStr "identity_card"),
      ("data", PyVal.VDict [
        ("personal_identification_number", dget fd "personal_identification_number" PyVal.VNone),
        ("full_name", dget fd "full_name" PyVal.VNone),
        ("date_of_birth", dget fd "date_of_birth" PyVal.VNone),
        ("sex", dget fd "sex" PyVal.VNone),
        ("nationality", dget fd "nationality" (PyVal.VStr "Việt Nam")),
        ("place_of_residence", pyOr (dget fd "place_of_residence" PyVal.VNone)
          (dget bd "place_of_residence" PyVal.VNone)),
        ("place_of_birth", pyOr (dget bd "place_of_birth" PyVal.VNone)
          (dget fd "place_of_origin" PyVal.VNone)),
        ("date_of_issue", dget bd "date_of_issue" PyVal.VNone),
        ("date_of_expiry", pyOr (dget bd "date_of_expiry" PyVal.VNone)
          (dget fd "date_of_expiry" PyVal.VNone))])]

/-- `merge_ocr_results` of `app.py` (lines 101–121), the Policy A merger:
portrait fields from the front, address/date fields from the back, no
fallbacks.  (`main.py` lines 119–140 performs the same merging but returns
the Vietnamese failure message; see `merge_ocr_results_main`.) -/
def merge_ocr_results_app (front_result back_result : PyDict) : Except String PyDict :=
  if !truthy (dget front_result "success" PyVal.VNone) ||
     !truthy (dget back_result "success" PyVal.VNone) then
    Except.ok [("success", PyVal.VBool false),
               ("error", PyVal.VStr "One or both OCR processes failed")]
  else do
    let fdv ← subscriptDict front_result "data"
    let fd ← asDict fdv
    let bdv ← subscriptDict back_result "data"
    let bd ← asDict bdv
    Except.ok [("success", PyVal.VBool true),
      ("document_type", PyVal.VStr "identity_card"),
      ("data", PyVal.VDict [
        ("personal_identification_number", dget fd "personal_identification_number" PyVal.VNone),
        ("full_name", dget fd "full_name" PyVal.VNone),
        ("date_of_birth", dget fd "date_of_birth" PyVal.VNone),
        ("sex", dget fd "sex" PyVal.VNone),
        ("nationality", dget fd "nationality" (PyVal.VStr "Việt Nam")),
        ("place_of_residence", dget bd "place_of_residence" PyVal.VNone),
        ("place_of_birth", dget bd "place_of_birth" PyVal.VNone),
        ("date_of_issue", dget bd "date_of_issue" PyVal.VNone),
        ("date_of_expiry", dget bd "date_of_expiry" PyVal.VNone)])]

/-- `merge_ocr_results` of `main.py` (lines 119–140): the same Policy A
merging as `app.py`, but the failure branch (line 123) returns the
Vietnamese message, like `helper.py`. -/
def merge_ocr_results_main (front_result back_result : PyDict) : Except String PyDict :=
  if !truthy (dget front_result "success" PyVal.VNone) ||
     !truthy (dget back_result "success" PyVal.VNone) then
    Except.ok [("success", PyVal.VBool false),
               ("error", PyVal.VStr "Một hoặc cả hai quá trình OCR thất bại")]
  else do
    let fdv ← subscriptDict front_result "data"
    let fd ← asDict fdv
    let bdv ← subscriptDict back_result "data"
    let bd ← asDict bdv
    Except.ok [("success", PyVal.VBool true),
      ("document_type", PyVal.VStr "identity_card"),
      ("data", PyVal.VDict [
        ("personal_identification_number", dget fd "personal_identification_number" PyVal.VNone),
        ("full_name", dget fd "full_name" PyVal.VNone),
        ("date_of_birth", dget fd "date_of_birth" PyVal.VNone),
        ("sex", dget fd "sex" PyVal.VNone),
        ("nationality", dget fd "nationality" (PyVal.VStr "Việt Nam")),
        ("place_of_residence", dget bd "place_of_residence" PyVal.VNone),
        ("place_of_birth", dget bd "place_of_birth" PyVal.VNone),
        ("date_of_issue", dget bd "date_of_issue" PyVal.VNone),
        ("date_of_expiry", dget bd "date_of_expiry" PyVal.VNone)])]

/-- The field mapping stored under `"data"` of a merger result (empty for
failures and errors). -/
def mergedData (r : Except String PyDict) : PyDict :=
  match r with
  | Except.ok d =>
    match dlookup d "data" with
    | some (PyVal.VDict dd) => dd
    | _ => []
  | Except.error _ => []

/-- One field of the merged data mapping. -/
def mergedField (r : Except String PyDict) (key : String) : PyVal :=
  dget (mergedData r) key PyVal.VNone

/-- The keys of the merged data mapping, in construction order. -/
def mergedDataKeys (r : Except String PyDict) : List String :=
  (mergedData r).map Prod.fst

/-- The nine keys both mergers emit. -/
def idCardMergedKeys : List String :=
  ["personal_identification_number", "full_name", "date_of_birth", "sex",
   "nationality", "place_of_residence", "place_of_birth", "date_of_issue",
   "date_of_expiry"]

theorem merge_helper_success_eq (front back : PyDict) (fd bd : PyDict)
    (hf : truthy (dget front "success" PyVal.VNone) = true)
    (hb : truthy (dget back "success" PyVal.VNone) = true)
    (hfd : dlookup front "data" = some (PyVal.VDict fd))
    (hbd : dlookup back "data" = some (PyVal.VDict bd)) :
    merge_ocr_results_helper front back = Except.ok [("success", PyVal.VBool true),
      ("document_type", PyVal.VStr "identity_card"),
      ("data", PyVal.VDict [
        ("personal_identification_number", dget fd "personal_identification_number" PyVal.VNone),
        ("full_name", dget fd "full_name" PyVal.VNone),
        ("date_of_birth", dget fd "date_of_birth" PyVal.VNone),
        ("sex", dget fd "sex" PyVal.VNone),
        ("nationality", dget fd "nationality" (PyVal.VStr "Việt Nam")),
        ("place_of_residence", pyOr (dget fd "place_of_residence" PyVal.VNone)
          (dget bd "place_of_residence" PyVal.VNone)),
        ("place_of_birth", pyOr (dget bd "place_of_birth" PyVal.VNone)
          (dget fd "place_of_origin" PyVal.VNone)),
        ("date_of_issue", dget bd "date_of_issue" PyVal.VNone),
        ("date_of_expiry", pyOr (dget bd "date_of_expiry" PyVal.VNone)
          (dget fd "date_of_expiry" PyVal.VNone))])] := by
  unfold merge_ocr_results_helper
  rw [hf, hb, if_neg (by decide)]
  unfold subscriptDict
  rw [hfd, hbd]
  rfl

theorem merge_app_success_eq (front back : PyDict) (fd bd : PyDict)
    (hf : truthy (dget front "success" PyVal.VNone) = true)
    (hb : truthy (dget back "success" PyVal.VNone) = true)
    (hfd : dlookup front "data" = some (PyVal.VDict fd))
    (hbd : dlookup back "data" = some (PyVal.VDict bd)) :
    merge_ocr_results_app front back = Except.ok [("success", PyVal.VBool true),
      ("document_type", PyVal.VStr "identity_card"),
      ("data", PyVal.VDict [
        ("personal_identification_number", dget fd "personal_identification_number" PyVal.VNone),
        ("full_name", dget fd "full_name" PyVal.VNone),
        ("date_of_birth", dget fd "date_of_birth" PyVal.VNone),
        ("sex", dget fd "sex" PyVal.VNone),
        ("nationality", dget fd "nationality" (PyVal.VStr "Việt Nam")),
        ("place_of_residence", dget bd "place_of_residence" PyVal.VNone),
        ("place_of_birth", dget bd "place_of_birth" PyVal.VNone),
        ("date_of_issue", dget bd "date_of_issue" PyVal.VNone),
        ("date_of_expiry", dget bd "date_of_expiry" PyVal.VNone)])] := by
  unfold merge_ocr_results_app
  rw [hf, hb, if_neg (by decide)]
  unfold subscriptDict
  rw [hfd, hbd]
  rfl

/-- A concrete front-side success whose data carries only `date_of_issue`. -/
def frontWithIssue : PyDict :=
  [("success", PyVal.VBool true),
   ("document_type", PyVal.VStr "identity_card"),
   ("data", PyVal.VDict [("date_of_issue", PyVal.VStr "2020-01-01")])]

/-- A concrete back-side success whose data mapping is empty. -/
def backEmptyData : PyDict :=
  [("success", PyVal.VBool true),
   ("document_type", PyVal.VStr "identity_card"),
   ("data", PyVal.VDict [])]

/-- C1 counterexample: under Policy B, `date_of_issue` is NOT "taken from
the front result only": with a front `date_of_issue` of `"2020-01-01"` and
a back result lacking the key, the merged `date_of_issue` is null, not the
front value. -/
theorem mergeB_date_of_issue_cex :
    mergedField (merge_ocr_results_helper frontWithIssue backEmptyData) "date_of_issue"
      = PyVal.VNone ∧
    dget [("date_of_issue", PyVal.VStr "2020-01-01")] "date_of_issue" PyVal.VNone
      = PyVal.VStr "2020-01-01" ∧
    PyVal.VNone ≠ PyVal.VStr "2020-01-01" :=
  ⟨rfl, rfl, fun h => PyVal.noConfusion h⟩

/-- C1 (amended): Policy B resolves `place_of_residence` as front-or-back,
`place_of_birth` as back-or-front-`place_of_origin`, `date_of_expiry` as
back-or-front, `nationality` as the front value with the literal
`"Việt Nam"` only when the key is absent; `personal_identification_number`,
`full_name`, `date_of_birth` and `sex` come from the front, while
`date_of_issue` comes from the back result (not the front). -/
theorem mergeB_policy_amended (front back : PyDict) (fd bd : PyDict)
    (hf : truthy (dget front "success" PyVal.VNone) = true)
    (hb : truthy (dget back "success" PyVal.VNone) = true)
    (hfd : dlookup front "data" = some (PyVal.VDict fd))
    (hbd : dlookup back "data" = some (PyVal.VDict bd)) :
    mergedField (merge_ocr_results_helper front back) "place_of_residence"
      = pyOr (dget fd "place_of_residence" PyVal.VNone) (dget bd "place_of_residence" PyVal.VNone) ∧
    mergedField (merge_ocr_results_helper front back) "place_of_birth"
      = pyOr (dget bd "place_of_birth" PyVal.VNone) (dget fd "place_of_origin" PyVal.VNone) ∧
    mergedField (merge_ocr_results_helper front back) "date_of_expiry"
      = pyOr (dget bd "date_of_expiry" PyVal.VNone) (dget fd "date_of_expiry" PyVal.VNone) ∧
    mergedField (merge_ocr_results_helper front back) "nationality"
      = dget fd "nationality" (PyVal.VStr "Việt Nam") ∧
    mergedField (merge_ocr_results_helper front back) "personal_identification_number"
      = dget fd "personal_identification_number" PyVal.VNone ∧
    mergedField (merge_ocr_results_helper front back) "full_name"
      = dget fd "full_name" PyVal.VNone ∧
    mergedField (merge_ocr_results_helper front back) "date_of_birth"
      = dget fd "date_of_birth" PyVal.VNone ∧
    mergedField (merge_ocr_results_helper front back) "sex"
      = dget fd "sex" PyVal.VNone ∧
    mergedField (merge_ocr_results_helper front back) "date_of_issue"
      = dget bd "date_of_issue" PyVal.VNone := by
  have hres := merge_helper_success_eq front back fd bd hf hb hfd hbd
  refine ⟨?_, ?_, ?_, ?_, ?_, ?_, ?_, ?_, ?_⟩ <;> rw [mergedField, mergedData.eq_def, hres] <;> rfl

/-- Witness for the amended C1 theorem at concrete inputs. -/
theorem mergeB_policy_amended_witness :
    mergedField (merge_ocr_results_helper frontWithIssue backEmptyData) "date_of_issue"
      = dget ([] : PyDict) "date_of_issue" PyVal.VNone :=
  (mergeB_policy_amended frontWithIssue backEmptyData
    [("date_of_issue", PyVal.VStr "2020-01-01")] []
    (by decide) (by decide) rfl rfl).2.2.2.2.2.2.2.2

/-- A result whose success flag is true but whose data mapping carries none
of the expected identity-card keys: it lacks the expected shape. -/
def successEmptyShape : PyDict :=
  [("success", PyVal.VBool true), ("data", PyVal.VDict [])]

/-- C2 counterexample: the claim says any success result lacking the
expected field-mapping shape makes the merger fail, but the Policy A
merger happily merges two success results with empty data mappings and
reports success. -/
theorem merge_shape_cex :
    (∃ d, merge_ocr_results_app successEmptyShape successEmptyShape = Except.ok d ∧
      dlookup d "success" = some (PyVal.VBool true)) ∧
    PyVal.VBool true ≠ PyVal.VBool false :=
  ⟨⟨_, rfl, rfl⟩, fun h => by injection h with h'; exact Bool.noConfusion h'⟩

theorem except_bind_ok {α β : Type} (x : Except String α) (f : α → Except String β)
    (b : β) (h : x >>= f = Except.ok b) :
    ∃ a, x = Except.ok a ∧ f a = Except.ok b := by
  cases x with
  | ok a => exact ⟨a, rfl, h⟩
  | error e =>
    have h2 : (Except.error e : Except String β) = Except.ok b := h
    exact Except.noConfusion h2

theorem merge_app_ok_flag (front back : PyDict) (D : PyDict)
    (hf : truthy (dget front "success" PyVal.VNone) = true)
    (hb : truthy (dget back "success" PyVal.VNone) = true)
    (h : merge_ocr_results_app front back = Except.ok D) :
    dlookup D "success" = some (PyVal.VBool true) := by
  unfold merge_ocr_results_app at h
  rw [hf, hb, if_neg (by decide)] at h
  obtain ⟨fdv, _, h⟩ := except_bind_ok _ _ _ h
  obtain ⟨fd, _, h⟩ := except_bind_ok _ _ _ h
  obtain ⟨bdv, _, h⟩ := except_bind_ok _ _ _ h
  obtain ⟨bd, _, h⟩ := except_bind_ok _ _ _ h
  rw [← Except.ok.inj h]
  rfl

theorem merge_main_ok_flag (front back : PyDict) (D : PyDict)
    (hf : truthy (dget front "success" PyVal.VNone) = true)
    (hb : truthy (dget back "success" PyVal.VNone) = true)
    (h : merge_ocr_results_main front back = Except.ok D) :
    dlookup D "success" = some (PyVal.VBool true) := by
  unfold merge_ocr_results_main at h
  rw [hf, hb, if_neg (by decide)] at h
  obtain ⟨fdv, _, h⟩ := except_bind_ok _ _ _ h
  obtain ⟨fd, _, h⟩ := except_bind_ok _ _ _ h
  obtain ⟨bdv, _, h⟩ := except_bind_ok _ _ _ h
  obtain ⟨bd, _, h⟩ := except_bind_ok _ _ _ h
  rw [← Except.ok.inj h]
  rfl

theorem merge_helper_ok_flag (front back : PyDict) (D : PyDict)
    (hf : truthy (dget front "success" PyVal.VNone) = true)
    (hb : truthy (dget back "success" PyVal.VNone) = true)
    (h : merge_ocr_results_helper front back = Except.ok D) :
    dlookup D "success" = some (PyVal.VBool true) := by
  unfold merge_ocr_results_helper at h
  rw [hf, hb, if_neg (by decide)] at h
  obtain ⟨fdv, _, h⟩ := except_bind_ok _ _ _ h
  obtain ⟨fd, _, h⟩ := except_bind_ok _ _ _ h
  obtain ⟨bdv, _, h⟩ := except_bind_ok _ _ _ h
  obtain ⟨bd, _, h⟩ := except_bind_ok _ _ _ h
  rw [← Except.ok.inj h]
  rfl

theorem some_false_ne_some_true :
    (some (PyVal.VBool false) : Option PyVal) ≠ some (PyVal.VBool true) := by
  intro h
  injection h with h1
  injection h1 with h2
  exact Bool.noConfusion h2

/-- C2 (amended): the mergers return their literal failure dictionary —
message `"One or both OCR processes failed"` in `app.py`, the Vietnamese
`"Một hoặc cả hai quá trình OCR thất bại"` in `main.py` and `helper.py` —
carrying no field data, exactly when either input's success flag is falsy
or absent; the shape of the data mappings is never checked, and a
success-flagged input lacking the `data` key makes every merger raise an
uncaught `KeyError` instead of returning the stated failure. -/
theorem merge_failure_iff (front back : PyDict) :
    (merge_ocr_results_app front back =
        Except.ok [("success", PyVal.VBool false),
                   ("error", PyVal.VStr "One or both OCR processes failed")] ↔
      (truthy (dget front "success" PyVal.VNone) = false ∨
       truthy (dget back "success" PyVal.VNone) = false)) ∧
    (merge_ocr_results_main front back =
        Except.ok [("success", PyVal.VBool false),
                   ("error", PyVal.VStr "Một hoặc cả hai quá trình OCR thất bại")] ↔
      (truthy (dget front "success" PyVal.VNone) = false ∨
       truthy (dget back "success" PyVal.VNone) = false)) ∧
    (merge_ocr_results_helper front back =
        Except.ok [("success", PyVal.VBool false),
                   ("error", PyVal.VStr "Một hoặc cả hai quá trình OCR thất bại")] ↔
      (truthy (dget front "success" PyVal.VNone) = false ∨
       truthy (dget back "success" PyVal.VNone) = false)) ∧
    (truthy (dget front "success" PyVal.VNone) = true →
     truthy (dget back "success" PyVal.VNone) = true →
     dlookup front "data" = none →
       merge_ocr_results_app front back = Except.error ("KeyError: " ++ "data") ∧
       merge_ocr_results_main front back = Except.error ("KeyError: " ++ "data") ∧
       merge_ocr_results_helper front back = Except.error ("KeyError: " ++ "data")) := by
  refine ⟨⟨?_, ?_⟩, ⟨?_, ?_⟩, ⟨?_, ?_⟩, ?_⟩
  · intro h
    rcases Bool.eq_false_or_eq_true (truthy (dget front "success" PyVal.VNone)) with hf | hf
    · rcases Bool.eq_false_or_eq_true (truthy (dget back "success" PyVal.VNone)) with hb | hb
      · exact absurd (merge_app_ok_flag front back _ hf hb h) some_false_ne_some_true
      · exact Or.inr hb
    · exact Or.inl hf
  · intro h
    have hcond : (!truthy (dget front "success" PyVal.VNone) ||
        !truthy (dget back "success" PyVal.VNone)) = true := by
      rcases h with h | h <;> simp [h]
    unfold merge_ocr_results_app
    rw [if_pos hcond]
  · intro h
    rcases Bool.eq_false_or_eq_true (truthy (dget front "success" PyVal.VNone)) with hf | hf
    · rcases Bool.eq_false_or_eq_true (truthy (dget back "success" PyVal.VNone)) with hb | hb
      · exact absurd (merge_main_ok_flag front back _ hf hb h) some_false_ne_some_true
      · exact Or.inr hb
    · exact Or.inl hf
  · intro h
    have hcond : (!truthy (dget front "success" PyVal.VNone) ||
        !truthy (dget back "success" PyVal.VNone)) = true := by
      rcases h with h | h <;> simp [h]
    unfold merge_ocr_results_main
    rw [if_pos hcond]
  · intro h
    rcases Bool.eq_false_or_eq_true (truthy (dget front "success" PyVal.VNone)) with hf | hf
    · rcases Bool.eq_false_or_eq_true (truthy (dget back "success" PyVal.VNone)) with hb | hb
      · exact absurd (merge_helper_ok_flag front back _ hf hb h) some_false_ne_some_true
      · exact Or.inr hb
    · exact Or.inl hf
  · intro h
    have hcond : (!truthy (dget front "success" PyVal.VNone) ||
        !truthy (dget back "success" PyVal.VNone)) = true := by
      rcases h with h | h <;> simp [h]
    unfold merge_ocr_results_helper
    rw [if_pos hcond]
  · intro hf hb hfd
    refine ⟨?_, ?_, ?_⟩
    · unfold merge_ocr_results_app subscriptDict
      rw [hf, hb, if_neg (by decide), hfd]
      rfl
    · unfold merge_ocr_results_main subscriptDict
      rw [hf, hb, if_neg (by decide), hfd]
      rfl
    · unfold merge_ocr_results_helper subscriptDict
      rw [hf, hb, if_neg (by decide), hfd]
      rfl

/-- Witness for the amended C2 theorem: a falsy front flag triggers all
three failure dictionaries, and two success-flagged inputs without a
`data` key make the merger raise `KeyError`. -/
theorem merge_failure_iff_witness :
    merge_ocr_results_app [("success", PyVal.VBool false)] successEmptyShape =
      Except.ok [("success", PyVal.VBool false),
                 ("error", PyVal.VStr "One or both OCR processes failed")] ∧
    merge_ocr_results_main [("success", PyVal.VBool false)] successEmptyShape =
      Except.ok [("success", PyVal.VBool false),
                 ("error", PyVal.VStr "Một hoặc cả hai quá trình OCR thất bại")] ∧
    merge_ocr_results_helper [("success", PyVal.VBool false)] successEmptyShape =
      Except.ok [("success", PyVal.VBool false),
                 ("error", PyVal.VStr "Một hoặc cả hai quá trình OCR thất bại")] ∧
    merge_ocr_results_app [("success", PyVal.VBool true)]
        [("success", PyVal.VBool true)] = Except.error ("KeyError: " ++ "data") :=
  ⟨(merge_failure_iff _ _).1.mpr (Or.inl (by decide)),
   (merge_failure_iff _ _).2.1.mpr (Or.inl (by decide)),
   (merge_failure_iff _ _).2.2.1.mpr (Or.inl (by decide)),
   ((merge_failure_iff [("success", PyVal.VBool true)]
      [("success", PyVal.VBool true)]).2.2.2 (by decide) (by decide) rfl).1⟩

/-- C9: whenever both inputs have a truthy success flag and carry a data
mapping, both mergers report success with document type
`"identity_card"`, and the merged data mapping's keys are exactly the nine
fixed keys — in particular `place_of_origin` never appears — no matter
which keys the input data mappings carry. -/
theorem merge_keys_closed (front back : PyDict) (fd bd : PyDict)
    (hf : truthy (dget front "success" PyVal.VNone) = true)
    (hb : truthy (dget back "success" PyVal.VNone) = true)
    (hfd : dlookup front "data" = some (PyVal.VDict fd))
    (hbd : dlookup back "data" = some (PyVal.VDict bd)) :
    ((∃ d, merge_ocr_results_helper front back = Except.ok d ∧
        dlookup d "success" = some (PyVal.VBool true) ∧
        dlookup d "document_type" = some (PyVal.VStr "identity_card")) ∧
      mergedDataKeys (merge_ocr_results_helper front back) = idCardMergedKeys ∧
      "place_of_origin" ∉ mergedDataKeys (merge_ocr_results_helper front back)) ∧
    ((∃ d, merge_ocr_results_app front back = Except.ok d ∧
        dlookup d "success" = some (PyVal.VBool true) ∧
        dlookup d "document_type" = some (PyVal.VStr "identity_card")) ∧
      mergedDataKeys (merge_ocr_results_app front back) = idCardMergedKeys ∧
      "place_of_origin" ∉ mergedDataKeys (merge_ocr_results_app front back)) := by
  have hres1 := merge_helper_success_eq front back fd bd hf hb hfd hbd
  have hres2 := merge_app_success_eq front back fd bd hf hb hfd hbd
  have hkeys1 : mergedDataKeys (merge_ocr_results_helper front back) = idCardMergedKeys := by
    rw [mergedDataKeys, mergedData.eq_def, hres1]
    rfl
  have hkeys2 : mergedDataKeys (merge_ocr_results_app front back) = idCardMergedKeys := by
    rw [mergedDataKeys, mergedData.eq_def, hres2]
    rfl
  constructor
  · refine ⟨⟨_, hres1, rfl, rfl⟩, hkeys1, ?_⟩
    rw [hkeys1]
    decide
  · refine ⟨⟨_, hres2, rfl, rfl⟩, hkeys2, ?_⟩
    rw [hkeys2]
    decide

/-- Witness for C9 at concrete inputs. -/
theorem merge_keys_closed_witness :
    mergedDataKeys (merge_ocr_results_helper frontWithIssue backEmptyData) = idCardMergedKeys :=
  (merge_keys_closed frontWithIssue backEmptyData
    [("date_of_issue", PyVal.VStr "2020-01-01")] []
    (by decide) (by decide) rfl rfl).1.2.1

/-! ## Extraction call: fenced-block search, JSON parsing, response handling -/

/-- The backtick character (written via its code point). -/
def btick : Char := Char.ofNat 96

/-- The backslash character (written via its code point). -/
def bslash : Char := Char.ofNat 92

/-- The left and right curly braces (written via their code points). -/
def lbrace : Char := Char.ofNat 123

def rbrace : Char := Char.ofNat 125

/-- Case-sensitive prefix test on character lists. -/
def beginsWith : List Char → List Char → Bool
  | [], _ => true
  | _ :: _, [] => false
  | p :: ps, c :: cs => p == c && beginsWith ps cs

/-- Index of the first occurrence of `pat` (as a contiguous substring). -/
def findSub (pat : List Char) : List Char → Option Nat
  | [] => if beginsWith pat [] then some 0 else none
  | c :: cs =>
    if beginsWith pat (c :: cs) then some 0
    else (findSub pat cs).map (· + 1)

/-- The literal opener of the regex, the eight characters of a fenced
JSON marker followed by a newline. -/
def jsonOpen : List Char := [btick, btick, btick, 'j', 's', 'o', 'n', '\n']

/-- The literal closer: a newline followed by three backticks. -/
def jsonClose : List Char := ['\n', btick, btick, btick]

/-- `re.search(r'```json\n(.*?)\n```', text, re.DOTALL)`: the leftmost
position where the opener matches and a closer follows yields the shortest
enclosed group; otherwise the search moves one character right. -/
def findJsonBlock : List Char → Option (List Char)
  | [] => none
  | c :: cs =>
    if beginsWith jsonOpen (c :: cs) then
      match findSub jsonClose ((c :: cs).drop 8) with
      | some j => some (((c :: cs).drop 8).take j)
      | none => findJsonBlock cs
    else findJsonBlock cs

/-- JSON whitespace accepted by `json.loads` between tokens. -/
def jsonWs (c : Char) : Bool := c == ' ' || c == '\t' || c == '\n' || c == '\r'

/-- One-character JSON string escapes (the `\uXXXX` form is not needed by
any input considered here and is rejected). -/
def escChar (e : Char) : Option Char :=
  if e = dquoteChar then some dquoteChar
  else if e = bslash then some bslash
  else if e = '/' then some '/'
  else if e = 'n' then some '\n'
  else if e = 't' then some '\t'
  else if e = 'r' then some '\r'
  else if e = 'b' then some '\x08'
  else if e = 'f' then some '\x0c'
  else none

/-- Parse the body of a JSON string after its opening quote; returns the
decoded characters and the input after the closing quote. -/
def parseJsonString : List Char → Except String (List Char × List Char)
  | [] => Except.error "Unterminated string"
  | c :: cs =>
    if c = dquoteChar then Except.ok ([], cs)
    else if c = bslash then
      match cs with
      | [] => Except.error "Unterminated string"
      | e :: cs' =>
        match parseJsonString cs' with
        | Except.ok (s, rest) =>
          match escChar e with
          | some ec => Except.ok (ec :: s, rest)
          | none => Except.error "Invalid escape"
        | Except.error err => Except.error err
    else
      match parseJsonString cs with
      | Except.ok (s, rest) => Except.ok (c :: s, rest)
      | Except.error err => Except.error err

/-- Decimal digits to a natural number. -/
def digitsToNat (l : List Char) : Nat :=
  l.foldl (fun acc c => acc * 10 + (c.toNat - 48)) 0

mutual

/-- Strict JSON value parsing (objects, arrays, strings, integers, the
three literals), modelling `json.loads`.  Fuel bounds the recursion; the
wrapper supplies more fuel than any input can consume. -/
def parseJsonValue : Nat → List Char → Except String (PyVal × List Char)
  | 0, _ => Except.error "Out of fuel"
  | fuel + 1, l0 =>
    match l0.dropWhile jsonWs with
    | [] => Except.error "Expecting value"
    | c :: cs =>
      if c = dquoteChar then
        match parseJsonString cs with
        | Except.ok (s, rest) => Except.ok (PyVal.VStr (String.mk s), rest)
        | Except.error e => Except.error e
      else if c = lbrace then
        match cs.dropWhile jsonWs with
        | d :: ds =>
          if d = rbrace then Except.ok (PyVal.VDict [], ds)
          else
            match parseJsonMembers fuel (cs.dropWhile jsonWs) with
            | Except.ok (kvs, rest) => Except.ok (PyVal.VDict kvs, rest)
            | Except.error e => Except.error e
        | [] => Except.error "Expecting property name"
      else if c = '[' then
        match cs.dropWhile jsonWs with
        | d :: ds =>
          if d = ']' then Except.ok (PyVal.VList [], ds)
          else
            match parseJsonElems fuel (cs.dropWhile jsonWs) with
            | Except.ok (vs, rest) => Except.ok (PyVal.VList vs, rest)
            | Except.error e => Except.error e
        | [] => Except.error "Expecting value"
      else if beginsWith ['n', 'u', 'l', 'l'] (c :: cs) then
        Except.ok (PyVal.VNone, cs.drop 3)
      else if beginsWith ['t', 'r', 'u', 'e'] (c :: cs) then
        Except.ok (PyVal.VBool true, cs.drop 3)
      else if beginsWith ['f', 'a', 'l', 's', 'e'] (c :: cs) then
        Except.ok (PyVal.VBool false, cs.drop 4)
      else if c = '-' || c.isDigit then
        let body := if c = '-' then cs else c :: cs
        let digits := body.takeWhile Char.isDigit
        let rest := body.dropWhile Char.isDigit
        if digits.isEmpty then Except.error "Expecting value"
        else
          match rest.head? with
          | some h =>
            if h = '.' || h = 'e' || h = 'E' then
              Except.error "Non-integer numbers not modelled"
            else
              Except.ok (PyVal.VNum (if c = '-' then -(digitsToNat digits : Int)
                else (digitsToNat digits : Int)), rest)
          | none =>
            Except.ok (PyVal.VNum (if c = '-' then -(digitsToNat digits : Int)
              else (digitsToNat digits : Int)), rest)
      else Except.error "Expecting value"

/-- Parse `"key": value (, "key": value)* }` starting at the first key. -/
def parseJsonMembers : Nat → List Char → Except String (List (String × PyVal) × List Char)
  | 0, _ => Except.error "Out of fuel"
  | fuel + 1, l0 =>
    match l0.dropWhile jsonWs with
    | [] => Except.error "Expecting property name"
    | c :: cs =>
      if c = dquoteChar then
        match parseJsonString cs with
        | Except.ok (k, rest) =>
          match rest.dropWhile jsonWs with
          | ':' :: vs =>
            match parseJsonValue fuel vs with
            | Except.ok (v, rest2) =>
              match rest2.dropWhile jsonWs with
              | ',' :: more =>
                (match parseJsonMembers fuel more with
                 | Except.ok (kvs, rest3) => Except.ok ((String.mk k, v) :: kvs, rest3)
                 | Except.error e => Except.error e)
              | d :: ds =>
                if d = rbrace then Except.ok ([(String.mk k, v)], ds)
                else Except.error "Expecting delimiter"
              | [] => Except.error "Expecting delimiter"
            | Except.error e => Except.error e
          | _ => Except.error "Expecting colon delimiter"
        | Except.error e => Except.error e
      else Except.error "Expecting property name"

/-- Parse `value (, value)* ]` starting at the first element. -/
def parseJsonElems : Nat → List Char → Except String (List PyVal × List Char)
  | 0, _ => Except.error "Out of fuel"
  | fuel + 1, l0 =>
    match parseJsonValue fuel l0 with
    | Except.ok (v, rest) =>
      match rest.dropWhile jsonWs with
      | ',' :: more =>
        (match parseJsonElems fuel more with
         | Except.ok (vs, rest2) => Except.ok (v :: vs, rest2)
         | Except.error e => Except.error e)
      | d :: ds =>
        if d = ']' then Except.ok ([v], ds)
        else Except.error "Expecting delimiter"
      | [] => Except.error "Expecting delimiter"
    | Except.error e => Except.error e

end

/-- `json.loads` on a character list: one value, then only whitespace. -/
def json_loads (l : List Char) : Except String PyVal :=
  match parseJsonValue (l.length + 1) l with
  | Except.ok (v, rest) =>
    if rest.dropWhile jsonWs = [] then Except.ok v
    else Except.error "Extra data"
  | Except.error e => Except.error e

/-- The response-handling part of `parse_ocr_to_json` as it appears (up to
the two message languages) in `helper.py` lines 273–285, `app.py` lines
87–97 and `main.py` lines 102–114.  The completion call itself is an
external collaborator; the input here is the provider's reply text.  The
reply is stripped, searched for a fenced JSON block, the block is stripped,
repaired with `fix_json_string` and strictly parsed; the parsed value is
returned as-is, with tagged failure dictionaries for a missing block and
for a parse error. -/
def parse_ocr_reply (noBlockMsg badJsonLead : String) (reply : String) : PyVal :=
  match findJsonBlock (pyStrip reply.toList) with
  | none => PyVal.VDict [("success", PyVal.VBool false), ("error", PyVal.VStr noBlockMsg)]
  | some block =>
    match json_loads (fix_json_stringL (pyStrip block)) with
    | Except.ok v => v
    | Except.error e =>
      PyVal.VDict [("success", PyVal.VBool false),
                   ("error", PyVal.VStr (badJsonLead ++ e))]

/-- `parse_ocr_to_json` of `app.py` (English failure messages). -/
def parse_ocr_to_json_app (reply : String) : PyVal :=
  parse_ocr_reply "No JSON block found in response" "Invalid JSON format: " reply

/-- `parse_ocr_to_json` of `helper.py`/`main.py` (Vietnamese failure
messages). -/
def parse_ocr_to_json_helper (reply : String) : PyVal :=
  parse_ocr_reply "Không tìm thấy khối JSON trong phản hồi" "Định dạng JSON không hợp lệ: " reply

/-- C4 counterexample: on a reply with no fenced block the extraction call
of `app.py` returns the message `"No JSON block found in response"`
(capital N) — not the exact literal `"no JSON block found in response"`
the claim states (and `helper.py` answers in Vietnamese). -/
theorem no_json_block_message_cex :
    parse_ocr_to_json_app "hello" =
      PyVal.VDict [("success", PyVal.VBool false),
                   ("error", PyVal.VStr "No JSON block found in response")] ∧
    "No JSON block found in response" ≠ "no JSON block found in response" :=
  ⟨rfl, by decide⟩

/-- C4 (amended): whenever the fenced-block search fails on the stripped
reply, the extraction call returns exactly its tagged failure dictionary —
message `"No JSON block found in response"` in `app.py` and
`"Không tìm thấy khối JSON trong phản hồi"` in `helper.py`/`main.py` —
with no partial field data. -/
theorem no_json_block_amended (reply : String)
    (h : findJsonBlock (pyStrip reply.toList) = none) :
    parse_ocr_to_json_app reply =
      PyVal.VDict [("success", PyVal.VBool false),
                   ("error", PyVal.VStr "No JSON block found in response")] ∧
    parse_ocr_to_json_helper reply =
      PyVal.VDict [("success", PyVal.VBool false),
                   ("error", PyVal.VStr "Không tìm thấy khối JSON trong phản hồi")] := by
  constructor
  · unfold parse_ocr_to_json_app parse_ocr_reply
    rw [h]
  · unfold parse_ocr_to_json_helper parse_ocr_reply
    rw [h]

/-- Witness for the amended C4 theorem at the blockless reply `"hello"`. -/
theorem no_json_block_amended_witness :
    parse_ocr_to_json_app "hello" =
      PyVal.VDict [("success", PyVal.VBool false),
                   ("error", PyVal.VStr "No JSON block found in response")] ∧
    parse_ocr_to_json_helper "hello" =
      PyVal.VDict [("success", PyVal.VBool false),
                   ("error", PyVal.VStr "Không tìm thấy khối JSON trong phản hồi")] :=
  no_json_block_amended "hello" rfl

/-- The closed identity-card schema of `helper.py` (ten keys, including
`place_of_origin`). -/
def identityCardSchema : List String :=
  ["personal_identification_number", "full_name", "date_of_birth", "sex",
   "nationality", "place_of_residence", "place_of_birth", "place_of_origin",
   "date_of_issue", "date_of_expiry"]

/-- A well-fenced, well-formed completion reply whose data mapping carries
a single key foreign to every schema. -/
def replyWrongSchema : String :=
  "```json\n\x7b\"success\": true, \"document_type\": \"identity_card\", \"data\": \x7b\"foo\": null\x7d\x7d\n```"

/-- C3 (code bug): the extraction call performs no schema validation: a
successful reply whose `data` carries the single unexpected key `"foo"`
is returned as a success as-is, although the claimed invariant requires
its key set to be exactly the identity-card schema. -/
theorem extraction_schema_gap :
    parse_ocr_to_json_helper replyWrongSchema =
      PyVal.VDict [("success", PyVal.VBool true),
                   ("document_type", PyVal.VStr "identity_card"),
                   ("data", PyVal.VDict [("foo", PyVal.VNone)])] ∧
    ["foo"] ≠ identityCardSchema :=
  ⟨rfl, by decide⟩

/-! ## OCR preprocessor (`preprocess_ocr_text` of `helper.py`) -/

/-- Case-folding pairs for `re.IGNORECASE` over the characters appearing
in the preprocessor's patterns: the ASCII uppercase letters plus the
Vietnamese uppercase letters used by the caption and header patterns. -/
def foldPairs : List (Char × Char) :=
  [('A', 'a'), ('B', 'b'), ('C', 'c'), ('D', 'd'), ('E', 'e'), ('F', 'f'),
   ('G', 'g'), ('H', 'h'), ('I', 'i'), ('J', 'j'), ('K', 'k'), ('L', 'l'),
   ('M', 'm'), ('N', 'n'), ('O', 'o'), ('P', 'p'), ('Q', 'q'), ('R', 'r'),
   ('S', 's'), ('T', 't'), ('U', 'u'), ('V', 'v'), ('W', 'w'), ('X', 'x'),
   ('Y', 'y'), ('Z', 'z'),
   ('Ê', 'ê'), ('Á', 'á'), ('Ơ', 'ơ'), ('Ư', 'ư'), ('Ờ', 'ờ'), ('Ú', 'ú'),
   ('Ớ', 'ớ'), ('Í', 'í'), ('Ộ', 'ộ'), ('Ò', 'ò'), ('Ã', 'ã'), ('Ủ', 'ủ'),
   ('Ĩ', 'ĩ'), ('Ệ', 'ệ'), ('Ă', 'ă'), ('Ô', 'ô'), ('Â', 'â')]

/-- Lowercase a character for case-insensitive matching. -/
def foldChar (c : Char) : Char :=
  ((foldPairs.find? (fun p => p.1 == c)).map Prod.snd).getD c

/-- Case-insensitive prefix test. -/
def ciBegins : List Char → List Char → Bool
  | [], _ => true
  | _ :: _, [] => false
  | p :: ps, c :: cs => foldChar p == foldChar c && ciBegins ps cs

/-- Index of the first case-insensitive occurrence of `pat`. -/
def findCI (pat : List Char) : List Char → Option Nat
  | [] => if ciBegins pat [] then some 0 else none
  | c :: cs =>
    if ciBegins pat (c :: cs) then some 0
    else (findCI pat cs).map (· + 1)

/-- Case-insensitive occurrence test. -/
def ciOccurs (pat : List Char) : List Char → Bool
  | [] => ciBegins pat []
  | c :: cs => ciBegins pat (c :: cs) || ciOccurs pat cs

/-- Stage 1 worker: each maximal whitespace run containing a newline
becomes a single newline (`re.sub(r"\s*\n\s*", "\n", _)`); fuel is
consumed one unit per run or character, so the input length suffices. -/
def normNewlinesAux : Nat → List Char → List Char
  | 0, l => l
  | _ + 1, [] => []
  | f + 1, c :: cs =>
    if isPySpace c then
      (if (c :: cs.takeWhile isPySpace).contains '\n' then ['\n']
       else c :: cs.takeWhile isPySpace) ++ normNewlinesAux f (cs.dropWhile isPySpace)
    else c :: normNewlinesAux f cs

/-- Stage 1 of the preprocessor on the stripped text. -/
def normNewlines (l : List Char) : List Char := normNewlinesAux l.length l

/-- Scanning worker for the case-insensitive fixed-string substitution of
stage 2 (`re.sub(r"Giới tinh", "Giới tính", _, flags=re.IGNORECASE)`). -/
def reSubCIAux (pat rep : List Char) : Nat → List Char → List Char
  | 0, l => l
  | _ + 1, [] => []
  | f + 1, c :: cs =>
    if ciBegins pat (c :: cs) then rep ++ reSubCIAux pat rep f (cs.drop (pat.length - 1))
    else c :: reSubCIAux pat rep f cs

/-- Case-insensitive global fixed-string substitution. -/
def reSubCI (pat rep : List Char) (l : List Char) : List Char :=
  reSubCIAux pat rep l.length l

def gioiTinhPat : List Char := ['G', 'i', 'ớ', 'i', ' ', 't', 'i', 'n', 'h']

def gioiTinhRep : List Char := ['G', 'i', 'ớ', 'i', ' ', 't', 'í', 'n', 'h']

/-- Does `\n` followed by a non-`\n` character stand at offset `b`?  On
success, the count of characters consumed through that newline. -/
def nlOkAt (R : List Char) (b : Nat) : Option Nat :=
  match R.drop b with
  | c :: d :: _ => if c = '\n' ∧ d ≠ '\n' then some (b + 1) else none
  | _ => none

/-- Greedy descent of `\s*` before the mandatory `\n`: the largest viable
offset wins, exactly the backtracking order of the regex engine. -/
def tryNlDesc (R : List Char) : Nat → Option Nat
  | 0 => nlOkAt R 0
  | b + 1 =>
    match nlOkAt R (b + 1) with
    | some n => some n
    | none => tryNlDesc R b

/-- Characters consumed by `\s*[:\-]?\s*\n` (newline included) after a
caption, following the regex backtracking order: maximal whitespace, then
an optional colon/dash, then the greedy descent for the newline, with the
punctuation-free descent as fallback. -/
def sepPunct (R : List Char) : Option Nat :=
  match R.drop ((R.takeWhile isPySpace).length) with
  | c :: R2 =>
    if c = ':' ∨ c = '-' then
      (tryNlDesc R2 ((R2.takeWhile isPySpace).length)).map
        (fun n => (R.takeWhile isPySpace).length + 1 + n)
    else none
  | [] => none

def sepConsumed (R : List Char) : Option Nat :=
  match sepPunct R with
  | some n => some n
  | none => tryNlDesc R ((R.takeWhile isPySpace).length)

/-- Length matched by the greedy `[^\n]+(?:\n[^\n]+)*` group. -/
def grabLenAux : Nat → List Char → Nat
  | 0, _ => 0
  | f + 1, R =>
    let l1 := (R.takeWhile (· != '\n')).length
    match R.drop l1 with
    | c :: d :: rest =>
      if c = '\n' ∧ d ≠ '\n' then l1 + 1 + grabLenAux f (d :: rest) else l1
    | _ => l1

def grabLen (R : List Char) : Nat := grabLenAux R.length R

/-- `re.sub(r"\n", ", ", _)` used inside the caption replacement. -/
def nlToComma : List Char → List Char
  | [] => []
  | c :: cs => if c = '\n' then ',' :: ' ' :: nlToComma cs else c :: nlToComma cs

/-- Try the caption alternation at the current position: if one caption is
a case-insensitive prefix and the separator and group match after it, the
replacement string (`"<caption>: <lines joined by comma-space>"`, the
caption spelled as matched) and the matched length. -/
def matchCaptionAt (pats : List (List Char)) (l : List Char) : Option (List Char × Nat) :=
  pats.findSome? fun pat =>
    if ciBegins pat l then
      match sepConsumed (l.drop pat.length) with
      | some n =>
        let g := grabLen ((l.drop pat.length).drop n)
        some (l.take pat.length ++ ':' :: ' ' ::
          nlToComma (pyStrip (((l.drop pat.length).drop n).take g)),
          pat.length + n + g)
      | none => none
    else none

/-- Scanning worker for the caption-rejoining substitutions of stages 3
and 4. -/
def reSubCaptionAux (pats : List (List Char)) : Nat → List Char → List Char
  | 0, l => l
  | _ + 1, [] => []
  | f + 1, c :: cs =>
    match matchCaptionAt pats (c :: cs) with
    | some (repl, k) => repl ++ reSubCaptionAux pats f (cs.drop (k - 1))
    | none => c :: reSubCaptionAux pats f cs

/-- Global substitution of one caption-rejoining regex. -/
def reSubCaption (pats : List (List Char)) (l : List Char) : List Char :=
  reSubCaptionAux pats l.length l

def queQuanPats : List (List Char) := ["Quê quán".toList, "Place of origin".toList]

def noiThuongTruPats : List (List Char) := ["Nơi thường trú".toList, "Place of residence".toList]

def hdrPat1 : List Char := "CỘNG HÒA XÃ HỘI CHỦ NGHĨA VIỆT NAM\n".toList

def hdrPat2 : List Char := "\nSOCIALIST REPUBLIC OF VIET NAM\n".toList

def hdrPat3 : List Char := "\nCĂN CƯỚC CÔNG DÂN\n".toList

def hdrPat4 : List Char := "\nCitizen Identity Card".toList

/-- Match the boilerplate-header regex at the current position: the first
anchor must match here, each lazy `.*?` then reaches for the earliest
occurrence of the next anchor. -/
def matchHeaderAt (l : List Char) : Option Nat :=
  if ciBegins hdrPat1 l then
    match findCI hdrPat2 (l.drop hdrPat1.length) with
    | some i2 =>
      match findCI hdrPat3 ((l.drop hdrPat1.length).drop (i2 + hdrPat2.length)) with
      | some i3 =>
        match findCI hdrPat4 (((l.drop hdrPat1.length).drop (i2 + hdrPat2.length)).drop
            (i3 + hdrPat3.length)) with
        | some i4 => some (hdrPat1.length + i2 + hdrPat2.length + i3 + hdrPat3.length
            + i4 + hdrPat4.length)
        | none => none
      | none => none
    | none => none
  else none

/-- Scanning worker for the header-removal substitution of stage 5. -/
def reSubHeaderAux : Nat → List Char → List Char
  | 0, l => l
  | _ + 1, [] => []
  | f + 1, c :: cs =>
    match matchHeaderAt (c :: cs) with
    | some k => reSubHeaderAux f (cs.drop (k - 1))
    | none => c :: reSubHeaderAux f cs

/-- Global removal of the boilerplate header block. -/
def reSubHeader (l : List Char) : List Char := reSubHeaderAux l.length l

/-- `preprocess_ocr_text` of `helper.py` (lines 86–118) on character
lists: strip, stage 1 newline normalization, stage 2 label fix, stages 3
and 4 caption rejoining, stage 5 header removal, final strip. -/
def preprocess_ocr_textL (l : List Char) : List Char :=
  pyStrip (reSubHeader (reSubCaption noiThuongTruPats (reSubCaption queQuanPats
    (reSubCI gioiTinhPat gioiTinhRep (normNewlines (pyStrip l))))))

/-- The OCR Preprocessor `preprocess_ocr_text`. -/
def preprocess_ocr_text (s : String) : String :=
  String.mk (preprocess_ocr_textL s.toList)

/-! ### Case folding and scanning facts -/

theorem foldChar_eq_nl {c : Char} (h : foldChar c = '\n') : c = '\n' := by
  unfold foldChar at h
  cases hf : foldPairs.find? (fun p => p.1 == c) with
  | none => rw [hf] at h; simpa using h
  | some p =>
    rw [hf] at h
    simp only [Option.map_some', Option.getD_some] at h
    have hmem := List.mem_of_find?_eq_some hf
    have hall : ∀ q ∈ foldPairs, q.2 ≠ '\n' := by decide
    exact absurd h (hall p hmem)

theorem ciBegins_refl_append (p X : List Char) : ciBegins p (p ++ X) = true := by
  induction p with
  | nil => rfl
  | cons a as ih => simp [ciBegins, ih]

theorem ciBegins_nl_mem : ∀ (p l : List Char), '\n' ∈ p → ciBegins p l = true → '\n' ∈ l := by
  intro p
  induction p with
  | nil => intro l h; simp at h
  | cons a as ih =>
    intro l hm hb
    cases l with
    | nil => simp [ciBegins] at hb
    | cons c cs =>
      simp only [ciBegins, Bool.and_eq_true, beq_iff_eq] at hb
      rcases List.mem_cons.mp hm with h1 | h1
      · have hfc : foldChar c = '\n' := by
          rw [← hb.1, ← h1]
          decide
        rw [foldChar_eq_nl hfc]
        exact List.mem_cons_self _ _
      · exact List.mem_cons_of_mem _ (ih cs h1 hb.2)

theorem nlOkAt_nl {R : List Char} {b n : Nat} (h : nlOkAt R b = some n) : '\n' ∈ R := by
  unfold nlOkAt at h
  split at h
  · rename_i c d tail heq
    by_cases hc : c = '\n' ∧ d ≠ '\n'
    · have hmem : c ∈ R.drop b := by rw [heq]; simp
      have := List.drop_subset b R hmem
      rw [← hc.1]
      exact this
    · rw [if_neg hc] at h
      simp at h
  · simp at h

theorem tryNlDesc_nl : ∀ (R : List Char) (b : Nat) {n : Nat},
    tryNlDesc R b = some n → '\n' ∈ R := by
  intro R b
  induction b with
  | zero =>
    intro n h
    unfold tryNlDesc at h
    exact nlOkAt_nl h
  | succ b ih =>
    intro n h
    unfold tryNlDesc at h
    cases hx : nlOkAt R (b + 1) with
    | some m => exact nlOkAt_nl hx
    | none =>
      rw [hx] at h
      exact ih h

theorem sepPunct_nl {R : List Char} {n : Nat} (h : sepPunct R = some n) : '\n' ∈ R := by
  unfold sepPunct at h
  split at h
  · rename_i c R2 heq
    by_cases hc : c = ':' ∨ c = '-'
    · rw [if_pos hc] at h
      cases ht : tryNlDesc R2 ((R2.takeWhile isPySpace).length) with
      | some m =>
        have hnl : '\n' ∈ R2 := tryNlDesc_nl R2 _ ht
        have hmem : '\n' ∈ R.drop ((R.takeWhile isPySpace).length) := by
          rw [heq]
          exact List.mem_cons_of_mem _ hnl
        exact List.drop_subset _ R hmem
      | none =>
        rw [ht] at h
        simp at h
    · rw [if_neg hc] at h
      simp at h
  · simp at h

theorem sepConsumed_nl {R : List Char} {n : Nat} (h : sepConsumed R = some n) : '\n' ∈ R := by
  unfold sepConsumed at h
  split at h
  · rename_i m heq
    exact sepPunct_nl heq
  · exact tryNlDesc_nl R _ h

theorem matchCaptionAt_nl : ∀ (pats : List (List Char)) (l : List Char) (r : List Char × Nat),
    matchCaptionAt pats l = some r → '\n' ∈ l := by
  intro pats
  induction pats with
  | nil => intro l r h; simp [matchCaptionAt] at h
  | cons p ps ih =>
    intro l r h
    unfold matchCaptionAt at h
    rw [List.findSome?_cons] at h
    by_cases hci : ciBegins p l = true
    · rw [if_pos hci] at h
      cases hs : sepConsumed (l.drop p.length) with
      | some n =>
        have := sepConsumed_nl hs
        exact List.drop_subset _ l this
      | none =>
        rw [hs] at h
        exact ih l r h
    · rw [if_neg hci] at h
      exact ih l r h

theorem reSubCaptionAux_no_nl (pats : List (List Char)) :
    ∀ (f : Nat) (l : List Char), '\n' ∉ l → reSubCaptionAux pats f l = l := by
  intro f
  induction f with
  | zero => intro l _; rfl
  | succ f ih =>
    intro l hl
    cases l with
    | nil => rfl
    | cons c cs =>
      unfold reSubCaptionAux
      cases hm : matchCaptionAt pats (c :: cs) with
      | some r => exact absurd (matchCaptionAt_nl pats _ r hm) hl
      | none =>
        rw [ih cs (fun hmem => hl (List.mem_cons_of_mem _ hmem))]

theorem reSubCaption_no_nl (pats : List (List Char)) {l : List Char} (h : '\n' ∉ l) :
    reSubCaption pats l = l :=
  reSubCaptionAux_no_nl pats l.length l h

theorem matchHeaderAt_nl {l : List Char} {k : Nat} (h : matchHeaderAt l = some k) :
    '\n' ∈ l := by
  unfold matchHeaderAt at h
  by_cases hci : ciBegins hdrPat1 l = true
  · exact ciBegins_nl_mem hdrPat1 l (by decide) hci
  · rw [if_neg hci] at h
    simp at h

theorem reSubHeaderAux_no_nl : ∀ (f : Nat) (l : List Char),
    '\n' ∉ l → reSubHeaderAux f l = l := by
  intro f
  induction f with
  | zero => intro l _; rfl
  | succ f ih =>
    intro l hl
    cases l with
    | nil => rfl
    | cons c cs =>
      unfold reSubHeaderAux
      cases hm : matchHeaderAt (c :: cs) with
      | some k => exact absurd (matchHeaderAt_nl hm) hl
      | none =>
        rw [ih cs (fun hmem => hl (List.mem_cons_of_mem _ hmem))]

theorem reSubHeader_no_nl {l : List Char} (h : '\n' ∉ l) : reSubHeader l = l :=
  reSubHeaderAux_no_nl l.length l h

/-! ### The shape of stage-1 output: no whitespace adjacent to a newline -/

/-- After stage 1, a newline never has whitespace next to it. -/
def noNlAdj (a b : Char) : Prop :=
  ¬(a = '\n' ∧ isPySpace b = true) ∧ ¬(isPySpace a = true ∧ b = '\n')

theorem noNlAdj_of_nonws_left {a : Char} (ha : isPySpace a = false) (b : Char) :
    noNlAdj a b := by
  constructor
  · intro h
    rw [h.1] at ha
    exact absurd ha (by decide)
  · intro h
    rw [h.1] at ha
    exact Bool.noConfusion ha

theorem noNlAdj_of_nonws_right {b : Char} (hb : isPySpace b = false) (a : Char) :
    noNlAdj a b := by
  constructor
  · intro h
    rw [h.2] at hb
    exact Bool.noConfusion hb
  · intro h
    rw [h.2] at hb
    exact absurd hb (by decide)

theorem chain'_noNlAdj_of_no_nl {l : List Char} (h : '\n' ∉ l) : l.Chain' noNlAdj := by
  induction l with
  | nil => exact List.chain'_nil
  | cons a as ih =>
    rw [List.chain'_cons']
    refine ⟨?_, ih (fun hm => h (List.mem_cons_of_mem _ hm))⟩
    intro y hy
    have hya : y ∈ as := List.mem_of_mem_head? hy
    refine ⟨fun ⟨h1, _⟩ => h (by simp [h1]), fun ⟨_, h2⟩ => ?_⟩
    exact h (List.mem_cons_of_mem _ (h2 ▸ hya))

theorem chain'_of_suffix {l s : List Char} {R : Char → Char → Prop}
    (h : l.Chain' R) (hs : s <:+ l) : s.Chain' R := by
  obtain ⟨t, rfl⟩ := hs
  exact (List.chain'_append.mp h).2.1

theorem takeWhile_nil_of_head (p : Char → Bool) (l : List Char)
    (h : ∀ c ∈ l.head?, p c = false) : l.takeWhile p = [] := by
  cases l with
  | nil => rfl
  | cons a as =>
    rw [List.takeWhile_cons]
    have := h a (by simp)
    simp [this]

theorem dropWhile_eq_self_of_takeWhile_nil (p : Char → Bool) (l : List Char)
    (h : l.takeWhile p = []) : l.dropWhile p = l := by
  cases l with
  | nil => rfl
  | cons a as =>
    rw [List.takeWhile_cons] at h
    rw [List.dropWhile_cons]
    by_cases hp : p a = true
    · simp [hp] at h
    · simp [hp]

/-- Inside one whitespace run of a `noNlAdj`-chained list, nothing after
the first character is a newline. -/
theorem chain_run_no_nl : ∀ (a : Char) (rest : List Char),
    (a :: rest).Chain' noNlAdj → isPySpace a = true →
    '\n' ∉ rest.takeWhile isPySpace := by
  intro a rest
  induction rest generalizing a with
  | nil => intro _ _ h; simp at h
  | cons b bs ih =>
    intro hch hws hmem
    rw [List.takeWhile_cons] at hmem
    by_cases hb : isPySpace b = true
    · rw [if_pos hb] at hmem
      have hR : noNlAdj a b := (List.chain'_cons'.mp hch).1 b (by simp)
      rcases List.mem_cons.mp hmem with h1 | h1
      · exact hR.2 ⟨hws, h1.symm⟩
      · exact ih b ((List.chain'_cons'.mp hch).2) hb h1
    · rw [if_neg (by simp [hb])] at hmem
      simp at hmem

/-- The first character of a whitespace run of length at least two is not
a newline. -/
theorem chain_run_head_no_nl {a : Char} {rest : List Char}
    (hch : (a :: rest).Chain' noNlAdj) (htw : rest.takeWhile isPySpace ≠ []) :
    a ≠ '\n' := by
  intro ha
  cases hd : rest.takeWhile isPySpace with
  | nil => exact htw hd
  | cons b bs =>
    have hbmem : b ∈ rest.takeWhile isPySpace := by rw [hd]; simp
    have hbws : isPySpace b = true := List.mem_takeWhile_imp hbmem
    have hbrest : b ∈ rest := by
      have := List.takeWhile_append_dropWhile isPySpace rest ▸ List.mem_append_left _ hbmem
      simpa using this
    have hhead : rest.head? = some b := by
      cases rest with
      | nil => simp at hbmem
      | cons r rs =>
        rw [List.takeWhile_cons] at hd
        by_cases hr : isPySpace r = true
        · rw [if_pos hr] at hd
          simp only [List.cons.injEq] at hd
          simp [hd.1]
        · simp [hr] at hd
    have hR : noNlAdj a b := (List.chain'_cons'.mp hch).1 b (by simp [hhead])
    exact hR.1 ⟨ha, hbws⟩

theorem normNewlinesAux_id : ∀ (f : Nat) (l : List Char),
    l.Chain' noNlAdj → normNewlinesAux f l = l := by
  intro f
  induction f with
  | zero => intro l _; rfl
  | succ f ih =>
    intro l hch
    cases l with
    | nil => rfl
    | cons c cs =>
      unfold normNewlinesAux
      by_cases hc : isPySpace c = true
      · rw [if_pos hc]
        have htail : cs.Chain' noNlAdj := (List.chain'_cons'.mp hch).2
        by_cases hrun : '\n' ∈ (c :: cs.takeWhile isPySpace)
        · have htw : cs.takeWhile isPySpace = [] := by
            by_contra htwne
            rcases List.mem_cons.mp hrun with h1 | h1
            · exact chain_run_head_no_nl hch htwne h1.symm
            · exact chain_run_no_nl c cs hch hc h1
          have hcn : c = '\n' := by
            rcases List.mem_cons.mp hrun with h1 | h1
            · exact h1.symm
            · rw [htw] at h1
              simp at h1
          rw [if_pos (by simp [hrun]), hcn]
          have hdrop : cs.dropWhile isPySpace = cs :=
            dropWhile_eq_self_of_takeWhile_nil isPySpace cs htw
          rw [hdrop, ih cs htail]
          rfl
        · rw [if_neg (by simpa using hrun)]
          have hsuf : cs.dropWhile isPySpace <:+ c :: cs :=
            (List.dropWhile_suffix isPySpace).trans (List.suffix_cons c cs)
          rw [ih (cs.dropWhile isPySpace) (chain'_of_suffix hch hsuf)]
          show c :: (cs.takeWhile isPySpace ++ cs.dropWhile isPySpace) = c :: cs
          rw [List.takeWhile_append_dropWhile]
      · rw [if_neg hc, ih cs (List.chain'_cons'.mp hch).2]

theorem normNewlines_id {l : List Char} (h : l.Chain' noNlAdj) : normNewlines l = l :=
  normNewlinesAux_id l.length l h

theorem normNewlinesAux_nil (f : Nat) : normNewlinesAux f [] = [] := by
  cases f <;> rfl

theorem normNewlinesAux_head_nonws (f : Nat) (l : List Char)
    (h : ∀ c ∈ l.head?, isPySpace c = false) :
    (normNewlinesAux f l).head? = l.head? := by
  cases f with
  | zero => rfl
  | succ f =>
    cases l with
    | nil => rfl
    | cons c cs =>
      unfold normNewlinesAux
      have hc := h c (by simp)
      rw [if_neg (by simp [hc])]
      simp

theorem normNewlinesAux_ne_nil (f : Nat) {l : List Char} (h : l ≠ []) :
    normNewlinesAux f l ≠ [] := by
  cases f with
  | zero => exact h
  | succ f =>
    cases l with
    | nil => exact absurd rfl h
    | cons c cs =>
      unfold normNewlinesAux
      by_cases hc : isPySpace c = true
      · rw [if_pos hc]
        by_cases hrun : '\n' ∈ (c :: cs.takeWhile isPySpace)
        · rw [if_pos (by simpa using hrun)]
          simp
        · rw [if_neg (by simpa using hrun)]
          simp
      · rw [if_neg hc]
        simp

theorem mem_run_ws {c : Char} {cs : List Char} {x : Char}
    (hc : isPySpace c = true) (hx : x ∈ c :: cs.takeWhile isPySpace) :
    isPySpace x = true := by
  rcases List.mem_cons.mp hx with h1 | h1
  · rw [h1]; exact hc
  · exact List.mem_takeWhile_imp h1

theorem normNewlinesAux_chain : ∀ (f : Nat) (l : List Char), l.length ≤ f →
    (normNewlinesAux f l).Chain' noNlAdj := by
  intro f
  induction f with
  | zero =>
    intro l hl
    have : l = [] := List.eq_nil_of_length_eq_zero (Nat.le_zero.mp hl)
    subst this
    exact List.chain'_nil
  | succ f ih =>
    intro l hl
    cases l with
    | nil => exact List.chain'_nil
    | cons c cs =>
      have hl' : cs.length ≤ f := by
        simp only [List.length_cons] at hl
        omega
      have hrest : (cs.dropWhile isPySpace).length ≤ f :=
        le_trans (dropWhile_length_le isPySpace cs) hl'
      unfold normNewlinesAux
      by_cases hc : isPySpace c = true
      · rw [if_pos hc]
        have hresthead : ∀ y ∈ (normNewlinesAux f (cs.dropWhile isPySpace)).head?,
            isPySpace y = false := by
          intro y hy
          rw [normNewlinesAux_head_nonws f _ (dropWhile_head_false isPySpace cs)] at hy
          exact dropWhile_head_false isPySpace cs y hy
        by_cases hrun : '\n' ∈ (c :: cs.takeWhile isPySpace)
        · rw [if_pos (by simpa using hrun)]
          show List.Chain' noNlAdj ('\n' :: normNewlinesAux f (cs.dropWhile isPySpace))
          rw [List.chain'_cons']
          refine ⟨?_, ih _ hrest⟩
          intro y hy
          exact noNlAdj_of_nonws_right (hresthead y hy) '\n'
        · rw [if_neg (by simpa using hrun)]
          rw [List.chain'_append]
          refine ⟨chain'_noNlAdj_of_no_nl (by simpa using hrun), ih _ hrest, ?_⟩
          intro x hx y hy
          exact noNlAdj_of_nonws_right (hresthead y hy) x
      · rw [if_neg hc, List.chain'_cons']
        refine ⟨?_, ih cs hl'⟩
        intro y _
        exact noNlAdj_of_nonws_left (by simpa using hc) y

theorem getLast?_append_of_ne_nil {A B : List Char} (h : B ≠ []) :
    (A ++ B).getLast? = B.getLast? := by
  rw [List.getLast?_append]
  cases hB : B.getLast? with
  | none =>
    cases B with
    | nil => exact absurd rfl h
    | cons b bs =>
      rw [List.getLast?_eq_getLast (b :: bs) (by simp)] at hB
      simp at hB
  | some v => rfl

theorem suffix_getLast? {s l : List Char} (hs : s <:+ l) (h : s ≠ []) :
    s.getLast? = l.getLast? := by
  obtain ⟨t, rfl⟩ := hs
  exact (getLast?_append_of_ne_nil h).symm

theorem normNewlinesAux_getLast : ∀ (f : Nat) (l : List Char),
    (∀ c ∈ l.getLast?, isPySpace c = false) →
    ∀ c ∈ (normNewlinesAux f l).getLast?, isPySpace c = false := by
  intro f
  induction f with
  | zero => intro l h; exact h
  | succ f ih =>
    intro l h
    cases l with
    | nil => intro c hc; simp [normNewlinesAux] at hc
    | cons c cs =>
      unfold normNewlinesAux
      by_cases hc : isPySpace c = true
      · rw [if_pos hc]
        have hrestne : cs.dropWhile isPySpace ≠ [] := by
          intro hnil
          have hall := (dropWhile_eq_nil_iff_all isPySpace cs).mp hnil
          have hmem : (c :: cs).getLast (by simp) ∈ (c :: cs) := List.getLast_mem _
          have hws : isPySpace ((c :: cs).getLast (by simp)) = true := by
            rcases List.mem_cons.mp hmem with h1 | h1
            · rw [h1]; exact hc
            · exact hall _ h1
          have hlast := h _ (Option.mem_def.mpr (List.getLast?_eq_getLast (c :: cs) (by simp)))
          rw [hlast] at hws
          exact Bool.noConfusion hws
        have hrestlast : ∀ d ∈ (cs.dropWhile isPySpace).getLast?, isPySpace d = false := by
          have hsuf : cs.dropWhile isPySpace <:+ c :: cs :=
            (List.dropWhile_suffix isPySpace).trans (List.suffix_cons c cs)
          rw [suffix_getLast? hsuf hrestne]
          exact h
        have houtne : normNewlinesAux f (cs.dropWhile isPySpace) ≠ [] :=
          normNewlinesAux_ne_nil f hrestne
        intro x hx
        rw [getLast?_append_of_ne_nil houtne] at hx
        exact ih _ hrestlast x hx
      · rw [if_neg hc]
        by_cases hcsnil : cs = []
        · subst hcsnil
          intro x hx
          rw [normNewlinesAux_nil] at hx
          simp only [List.getLast?_singleton, Option.mem_def, Option.some.injEq] at hx
          rw [← hx]
          simpa using hc
        · have houtne : normNewlinesAux f cs ≠ [] := normNewlinesAux_ne_nil f hcsnil
          intro x hx
          rw [show (c :: normNewlinesAux f cs) = [c] ++ normNewlinesAux f cs from rfl,
            getLast?_append_of_ne_nil houtne] at hx
          refine ih cs ?_ x hx
          rw [← getLast?_cons_ne_nil c hcsnil]
          exact h

/-! ### Stage 2: the label fix introduces no new match and preserves shape -/

theorem ciBegins_cons (p c : Char) (ps cs : List Char) :
    ciBegins (p :: ps) (c :: cs) = (foldChar p == foldChar c && ciBegins ps cs) := rfl

/-- The proper suffixes of the pattern `"Giới tinh"`. -/
def gtProperSuffixes : List (List Char) :=
  [['i', 'ớ', 'i', ' ', 't', 'i', 'n', 'h'],
   ['ớ', 'i', ' ', 't', 'i', 'n', 'h'],
   ['i', ' ', 't', 'i', 'n', 'h'],
   [' ', 't', 'i', 'n', 'h'],
   ['t', 'i', 'n', 'h'],
   ['i', 'n', 'h'],
   ['n', 'h'],
   ['h']]

theorem gtPS_ne_nil : ∀ ps ∈ gtProperSuffixes, ps ≠ [] := by decide

theorem gtPS_tail : ∀ ps ∈ gtProperSuffixes, ps.tail = [] ∨ ps.tail ∈ gtProperSuffixes := by
  decide

theorem gtPS_not_begin_rep : ∀ ps ∈ gtProperSuffixes, ∀ Z : List Char,
    ciBegins ps (gioiTinhRep ++ Z) = false := by
  intro ps hps Z
  fin_cases hps <;> rfl

theorem reSubCIAux_nil (p r : List Char) (f : Nat) : reSubCIAux p r f [] = [] := by
  cases f <;> rfl

theorem reSubCIAux_no_new_suffix : ∀ (f : Nat) (cs : List Char), cs.length ≤ f →
    ∀ ps ∈ gtProperSuffixes, ciBegins ps cs = false →
    ciBegins ps (reSubCIAux gioiTinhPat gioiTinhRep f cs) = false := by
  intro f
  induction f with
  | zero => intro cs _ ps _ h; exact h
  | succ f ih =>
    intro cs hcs ps hps h
    cases cs with
    | nil => exact h
    | cons c cs' =>
      have hlen : cs'.length ≤ f := by
        simp only [List.length_cons] at hcs
        omega
      unfold reSubCIAux
      by_cases hci : ciBegins gioiTinhPat (c :: cs') = true
      · rw [if_pos hci]
        exact gtPS_not_begin_rep ps hps _
      · rw [if_neg hci]
        obtain ⟨p, ps', rfl⟩ : ∃ p ps', ps = p :: ps' := by
          cases ps with
          | nil => exact absurd rfl (gtPS_ne_nil [] hps)
          | cons p ps' => exact ⟨p, ps', rfl⟩
        rw [ciBegins_cons] at h ⊢
        by_cases hf : (foldChar p == foldChar c) = true
        · rw [hf] at h ⊢
          simp only [Bool.true_and] at h ⊢
          rcases gtPS_tail _ hps with htail | htail
          · simp only [List.tail_cons] at htail
            subst htail
            simp [ciBegins] at h
          · simp only [List.tail_cons] at htail
            exact ih cs' hlen ps' htail h
        · have hf' : (foldChar p == foldChar c) = false := by simpa using hf
          rw [hf']
          simp

theorem ciOccurs_rep_append (Z : List Char) (h : ciOccurs gioiTinhPat Z = false) :
    ciOccurs gioiTinhPat (gioiTinhRep ++ Z) = false := by
  show ciOccurs gioiTinhPat
    ('G' :: 'i' :: 'ớ' :: 'i' :: ' ' :: 't' :: 'í' :: 'n' :: 'h' :: Z) = false
  simp only [ciOccurs]
  rw [h]
  rfl

theorem reSubCIAux_no_occ : ∀ (f : Nat) (l : List Char), l.length ≤ f →
    ciOccurs gioiTinhPat (reSubCIAux gioiTinhPat gioiTinhRep f l) = false := by
  intro f
  induction f with
  | zero =>
    intro l hl
    have hnil : l = [] := List.eq_nil_of_length_eq_zero (Nat.le_zero.mp hl)
    subst hnil
    decide
  | succ f ih =>
    intro l hl
    cases l with
    | nil => exact (by decide : ciOccurs gioiTinhPat [] = false)
    | cons c cs =>
      have hlen : cs.length ≤ f := by
        simp only [List.length_cons] at hl
        omega
      unfold reSubCIAux
      by_cases hci : ciBegins gioiTinhPat (c :: cs) = true
      · rw [if_pos hci]
        apply ciOccurs_rep_append
        refine ih _ ?_
        have : (cs.drop (gioiTinhPat.length - 1)).length ≤ cs.length := by
          rw [List.length_drop]
          omega
        omega
      · rw [if_neg hci]
        simp only [ciOccurs]
        have hcif : ciBegins gioiTinhPat (c :: cs) = false := by simpa using hci
        have hfirst : ciBegins gioiTinhPat
            (c :: reSubCIAux gioiTinhPat gioiTinhRep f cs) = false := by
          show ciBegins ('G' :: ['i', 'ớ', 'i', ' ', 't', 'i', 'n', 'h'])
            (c :: reSubCIAux gioiTinhPat gioiTinhRep f cs) = false
          rw [ciBegins_cons]
          by_cases hfold : (foldChar 'G' == foldChar c) = true
          · rw [hfold]
            simp only [Bool.true_and]
            have hsub : ciBegins ['i', 'ớ', 'i', ' ', 't', 'i', 'n', 'h'] cs = false := by
              have : ciBegins ('G' :: ['i', 'ớ', 'i', ' ', 't', 'i', 'n', 'h']) (c :: cs)
                  = false := hcif
              rw [ciBegins_cons, hfold] at this
              simpa using this
            exact reSubCIAux_no_new_suffix f cs hlen _ (by decide) hsub
          · have hf' : (foldChar 'G' == foldChar c) = false := by simpa using hfold
            rw [hf']
            simp
        rw [hfirst, ih cs hlen]
        rfl

theorem reSubCIAux_id : ∀ (f : Nat) (l : List Char),
    ciOccurs gioiTinhPat l = false → reSubCIAux gioiTinhPat gioiTinhRep f l = l := by
  intro f
  induction f with
  | zero => intro l _; rfl
  | succ f ih =>
    intro l h
    cases l with
    | nil => rfl
    | cons c cs =>
      simp only [ciOccurs, Bool.or_eq_false_iff] at h
      unfold reSubCIAux
      rw [if_neg (by simp [h.1]), ih cs h.2]

theorem reSubCI_no_occ (l : List Char) :
    ciOccurs gioiTinhPat (reSubCI gioiTinhPat gioiTinhRep l) = false :=
  reSubCIAux_no_occ l.length l le_rfl

theorem reSubCI_id {l : List Char} (h : ciOccurs gioiTinhPat l = false) :
    reSubCI gioiTinhPat gioiTinhRep l = l :=
  reSubCIAux_id l.length l h

theorem reSubCIAux_head (f : Nat) (l : List Char) :
    (reSubCIAux gioiTinhPat gioiTinhRep f l).head? = l.head? ∨
    (reSubCIAux gioiTinhPat gioiTinhRep f l).head? = some 'G' := by
  cases f with
  | zero => exact Or.inl rfl
  | succ f =>
    cases l with
    | nil => exact Or.inl rfl
    | cons c cs =>
      unfold reSubCIAux
      by_cases hci : ciBegins gioiTinhPat (c :: cs) = true
      · rw [if_pos hci]
        exact Or.inr rfl
      · rw [if_neg hci]
        exact Or.inl rfl

theorem reSubCIAux_ne_nil (f : Nat) {l : List Char} (h : l ≠ []) :
    reSubCIAux gioiTinhPat gioiTinhRep f l ≠ [] := by
  cases f with
  | zero => exact h
  | succ f =>
    cases l with
    | nil => exact absurd rfl h
    | cons c cs =>
      unfold reSubCIAux
      by_cases hci : ciBegins gioiTinhPat (c :: cs) = true
      · rw [if_pos hci]
        simp [gioiTinhRep]
      · rw [if_neg hci]
        simp

theorem reSubCIAux_getLast : ∀ (f : Nat) (l : List Char), l.length ≤ f →
    (reSubCIAux gioiTinhPat gioiTinhRep f l).getLast? = l.getLast? ∨
    (reSubCIAux gioiTinhPat gioiTinhRep f l).getLast? = some 'h' := by
  intro f
  induction f with
  | zero => intro l _; exact Or.inl rfl
  | succ f ih =>
    intro l hl
    cases l with
    | nil => exact Or.inl rfl
    | cons c cs =>
      have hlen : cs.length ≤ f := by
        simp only [List.length_cons] at hl
        omega
      unfold reSubCIAux
      by_cases hci : ciBegins gioiTinhPat (c :: cs) = true
      · rw [if_pos hci]
        by_cases hrest : cs.drop (gioiTinhPat.length - 1) = []
        · rw [hrest, reSubCIAux_nil, List.append_nil]
          exact Or.inr rfl
        · have houtne : reSubCIAux gioiTinhPat gioiTinhRep f
              (cs.drop (gioiTinhPat.length - 1)) ≠ [] := reSubCIAux_ne_nil f hrest
          rw [getLast?_append_of_ne_nil houtne]
          have hd : (cs.drop (gioiTinhPat.length - 1)).length ≤ f := by
            have : (cs.drop (gioiTinhPat.length - 1)).length ≤ cs.length := by
              rw [List.length_drop]
              omega
            omega
          rcases ih _ hd with h1 | h1
          · rw [h1]
            left
            have hsuf : cs.drop (gioiTinhPat.length - 1) <:+ c :: cs :=
              (List.drop_suffix _ cs).trans (List.suffix_cons c cs)
            exact suffix_getLast? hsuf hrest
          · exact Or.inr h1
      · rw [if_neg hci]
        by_cases hcsnil : cs = []
        · subst hcsnil
          rw [reSubCIAux_nil]
          exact Or.inl rfl
        · have houtne : reSubCIAux gioiTinhPat gioiTinhRep f cs ≠ [] :=
            reSubCIAux_ne_nil f hcsnil
          rw [getLast?_cons_ne_nil c houtne]
          rcases ih cs hlen with h1 | h1
          · rw [h1]
            left
            exact (getLast?_cons_ne_nil c hcsnil).symm
          · exact Or.inr h1

theorem reSubCIAux_chain : ∀ (f : Nat) (l : List Char), l.length ≤ f →
    l.Chain' noNlAdj → (reSubCIAux gioiTinhPat gioiTinhRep f l).Chain' noNlAdj := by
  intro f
  induction f with
  | zero => intro l _ h; exact h
  | succ f ih =>
    intro l hl hch
    cases l with
    | nil => exact List.chain'_nil
    | cons c cs =>
      have hlen : cs.length ≤ f := by
        simp only [List.length_cons] at hl
        omega
      unfold reSubCIAux
      by_cases hci : ciBegins gioiTinhPat (c :: cs) = true
      · rw [if_pos hci]
        rw [List.chain'_append]
        have hd : (cs.drop (gioiTinhPat.length - 1)).length ≤ f := by
          have : (cs.drop (gioiTinhPat.length - 1)).length ≤ cs.length := by
            rw [List.length_drop]
            omega
          omega
        have hsuf : cs.drop (gioiTinhPat.length - 1) <:+ c :: cs :=
          (List.drop_suffix _ cs).trans (List.suffix_cons c cs)
        refine ⟨chain'_noNlAdj_of_no_nl (by decide), ih _ hd (chain'_of_suffix hch hsuf), ?_⟩
        intro x hx y _
        have hxh : x = 'h' := by
          have : (gioiTinhRep).getLast? = some 'h' := by decide
          rw [this] at hx
          simpa using hx.symm
        rw [hxh]
        exact noNlAdj_of_nonws_left (by decide) y
      · rw [if_neg hci]
        rw [List.chain'_cons']
        refine ⟨?_, ih cs hlen (List.chain'_cons'.mp hch).2⟩
        intro y hy
        rcases reSubCIAux_head f cs with h1 | h1
        · rw [h1] at hy
          exact (List.chain'_cons'.mp hch).1 y hy
        · rw [h1] at hy
          have : y = 'G' := by simpa using hy.symm
          rw [this]
          exact noNlAdj_of_nonws_right (by decide) c

theorem reSubCI_chain {l : List Char} (h : l.Chain' noNlAdj) :
    (reSubCI gioiTinhPat gioiTinhRep l).Chain' noNlAdj :=
  reSubCIAux_chain l.length l le_rfl h

theorem reSubCI_head (l : List Char) (h : ∀ c ∈ l.head?, isPySpace c = false) :
    ∀ c ∈ (reSubCI gioiTinhPat gioiTinhRep l).head?, isPySpace c = false := by
  intro c hc
  rcases reSubCIAux_head l.length l with h1 | h1
  · rw [show reSubCI gioiTinhPat gioiTinhRep l
      = reSubCIAux gioiTinhPat gioiTinhRep l.length l from rfl, h1] at hc
    exact h c hc
  · rw [show reSubCI gioiTinhPat gioiTinhRep l
      = reSubCIAux gioiTinhPat gioiTinhRep l.length l from rfl, h1] at hc
    have : c = 'G' := by simpa using hc.symm
    rw [this]
    decide

theorem reSubCI_getLast (l : List Char) (h : ∀ c ∈ l.getLast?, isPySpace c = false) :
    ∀ c ∈ (reSubCI gioiTinhPat gioiTinhRep l).getLast?, isPySpace c = false := by
  intro c hc
  rcases reSubCIAux_getLast l.length l le_rfl with h1 | h1
  · rw [show reSubCI gioiTinhPat gioiTinhRep l
      = reSubCIAux gioiTinhPat gioiTinhRep l.length l from rfl, h1] at hc
    exact h c hc
  · rw [show reSubCI gioiTinhPat gioiTinhRep l
      = reSubCIAux gioiTinhPat gioiTinhRep l.length l from rfl, h1] at hc
    have : c = 'h' := by simpa using hc.symm
    rw [this]
    decide

theorem normNewlines_head (l : List Char) (h : ∀ c ∈ l.head?, isPySpace c = false) :
    ∀ c ∈ (normNewlines l).head?, isPySpace c = false := by
  intro c hc
  rw [show normNewlines l = normNewlinesAux l.length l from rfl,
    normNewlinesAux_head_nonws l.length l h] at hc
  exact h c hc

theorem pyStrip_eq_self {l : List Char}
    (hh : ∀ c ∈ l.head?, isPySpace c = false)
    (hl : ∀ c ∈ l.getLast?, isPySpace c = false) : pyStrip l = l := by
  unfold pyStrip
  rw [lstripL_eq_self hh, rstripL_eq_self hl]

set_option maxHeartbeats 1000000 in
/-- C8: the OCR Preprocessor is idempotent on already-normalized text.
The hypotheses state, on the code itself, that the input has no residual
multi-line captions and no boilerplate header block: the two
caption-rejoining substitutions and the header-removal substitution leave
the (whitespace-normalized, label-fixed) text unchanged.  Under them a
second application of the preprocessor to its own output changes
nothing. -/
theorem preprocess_idempotent (t : String)
    (h3 : reSubCaption queQuanPats (reSubCI gioiTinhPat gioiTinhRep
        (normNewlines (pyStrip t.toList)))
      = reSubCI gioiTinhPat gioiTinhRep (normNewlines (pyStrip t.toList)))
    (h4 : reSubCaption noiThuongTruPats (reSubCI gioiTinhPat gioiTinhRep
        (normNewlines (pyStrip t.toList)))
      = reSubCI gioiTinhPat gioiTinhRep (normNewlines (pyStrip t.toList)))
    (h5 : reSubHeader (reSubCI gioiTinhPat gioiTinhRep
        (normNewlines (pyStrip t.toList)))
      = reSubCI gioiTinhPat gioiTinhRep (normNewlines (pyStrip t.toList))) :
    preprocess_ocr_text (preprocess_ocr_text t) = preprocess_ocr_text t := by
  have hv_chain : (reSubCI gioiTinhPat gioiTinhRep
      (normNewlines (pyStrip t.toList))).Chain' noNlAdj :=
    reSubCI_chain (normNewlinesAux_chain (pyStrip t.toList).length (pyStrip t.toList) le_rfl)
  have hv_head : ∀ c ∈ (reSubCI gioiTinhPat gioiTinhRep
      (normNewlines (pyStrip t.toList))).head?, isPySpace c = false :=
    reSubCI_head _ (normNewlines_head _ (pyStrip_head t.toList))
  have hv_last : ∀ c ∈ (reSubCI gioiTinhPat gioiTinhRep
      (normNewlines (pyStrip t.toList))).getLast?, isPySpace c = false :=
    reSubCI_getLast _ (normNewlinesAux_getLast (pyStrip t.toList).length _
      (pyStrip_getLast t.toList))
  have hv_strip : pyStrip (reSubCI gioiTinhPat gioiTinhRep
      (normNewlines (pyStrip t.toList)))
      = reSubCI gioiTinhPat gioiTinhRep (normNewlines (pyStrip t.toList)) :=
    pyStrip_eq_self hv_head hv_last
  have hfirst : preprocess_ocr_textL t.toList
      = reSubCI gioiTinhPat gioiTinhRep (normNewlines (pyStrip t.toList)) := by
    unfold preprocess_ocr_textL
    rw [h3, h4, h5, hv_strip]
  have hsecond : preprocess_ocr_textL (reSubCI gioiTinhPat gioiTinhRep
      (normNewlines (pyStrip t.toList)))
      = reSubCI gioiTinhPat gioiTinhRep (normNewlines (pyStrip t.toList)) := by
    unfold preprocess_ocr_textL
    rw [hv_strip, normNewlines_id hv_chain,
      reSubCI_id (reSubCI_no_occ (normNewlines (pyStrip t.toList))),
      h3, h4, h5, hv_strip]
  show String.mk (preprocess_ocr_textL (String.mk (preprocess_ocr_textL t.toList)).toList)
    = String.mk (preprocess_ocr_textL t.toList)
  have hdata : (String.mk (preprocess_ocr_textL t.toList)).toList
      = preprocess_ocr_textL t.toList := rfl
  rw [hdata, hfirst, hsecond]

/-- Witness for C8 at a concrete already-normalized input. -/
theorem preprocess_idempotent_witness :
    preprocess_ocr_text (preprocess_ocr_text "Số: 001\nGiới tính: Nam")
      = preprocess_ocr_text "Số: 001\nGiới tính: Nam" :=
  preprocess_idempotent "Số: 001\nGiới tính: Nam" (by decide) (by decide) (by decide)

/-! ### Joining caption lines (for the amended C6 statement) -/

/-- The lines of a rejoined caption body, interleaved with a separator. -/
def joinLines (sep : List Char) : List (List Char) → List Char
  | [] => []
  | [L] => L
  | L :: M :: rest => L ++ sep ++ joinLines sep (M :: rest)

theorem joinLines_ne_nil (sep : List Char) :
    ∀ lines : List (List Char), lines ≠ [] → (∀ L ∈ lines, L ≠ []) →
    joinLines sep lines ≠ [] := by
  intro lines
  match lines with
  | [] => intro h _; exact absurd rfl h
  | [L] => intro _ hL; exact hL L (by simp)
  | L :: M :: rest =>
    intro _ hL
    show L ++ sep ++ joinLines sep (M :: rest) ≠ []
    have : L ≠ [] := hL L (by simp)
    simp [this]

theorem joinLines_head? (sep : List Char) (L : List Char) (rest : List (List Char))
    (hL : L ≠ []) : (joinLines sep (L :: rest)).head? = L.head? := by
  cases rest with
  | nil => rfl
  | cons M r =>
    show (L ++ sep ++ joinLines sep (M :: r)).head? = L.head?
    cases L with
    | nil => exact absurd rfl hL
    | cons a L' => simp

theorem joinLines_getLast_nonws (sep : List Char) :
    ∀ lines : List (List Char), (∀ L ∈ lines, L ≠ []) →
    (∀ L ∈ lines, ∀ c ∈ L.getLast?, isPySpace c = false) →
    ∀ c ∈ (joinLines sep lines).getLast?, isPySpace c = false := by
  intro lines
  match lines with
  | [] => intro _ _ c hc; simp [joinLines] at hc
  | [L] => intro _ h c hc; exact h L (by simp) c hc
  | L :: M :: rest =>
    intro hne h c hc
    have hJ : joinLines sep (M :: rest) ≠ [] :=
      joinLines_ne_nil sep (M :: rest) (by simp)
        (fun K hK => hne K (List.mem_cons_of_mem _ hK))
    show isPySpace c = false
    have hc' : c ∈ (joinLines sep (M :: rest)).getLast? := by
      have : (L ++ sep ++ joinLines sep (M :: rest)).getLast?
          = (joinLines sep (M :: rest)).getLast? := getLast?_append_of_ne_nil hJ
      rw [← this]
      exact hc
    exact joinLines_getLast_nonws sep (M :: rest)
      (fun K hK => hne K (List.mem_cons_of_mem _ hK))
      (fun K hK => h K (List.mem_cons_of_mem _ hK)) c hc'

theorem joinLines_no_nl (sep : List Char) (hsep : '\n' ∉ sep) :
    ∀ lines : List (List Char), (∀ L ∈ lines, '\n' ∉ L) →
    '\n' ∉ joinLines sep lines := by
  intro lines
  match lines with
  | [] => intro _ h; simp [joinLines] at h
  | [L] => intro h hm; exact h L (by simp) hm
  | L :: M :: rest =>
    intro h hm
    show False
    rcases List.mem_append.mp hm with h1 | h1
    · rcases List.mem_append.mp h1 with h2 | h2
      · exact h L (by simp) h2
      · exact hsep h2
    · exact joinLines_no_nl sep hsep (M :: rest)
        (fun K hK => h K (List.mem_cons_of_mem _ hK)) h1

theorem joinLines_chain :
    ∀ lines : List (List Char), (∀ L ∈ lines, L ≠ []) →
    (∀ L ∈ lines, '\n' ∉ L) →
    (∀ L ∈ lines, ∀ c ∈ L.head?, isPySpace c = false) →
    (∀ L ∈ lines, ∀ c ∈ L.getLast?, isPySpace c = false) →
    (joinLines ['\n'] lines).Chain' noNlAdj := by
  intro lines
  match lines with
  | [] => intro _ _ _ _; exact List.chain'_nil
  | [L] => intro _ hnl _ _; exact chain'_noNlAdj_of_no_nl (hnl L (by simp))
  | L :: M :: rest =>
    intro hne hnl hhead hlast
    show (L ++ ['\n'] ++ joinLines ['\n'] (M :: rest)).Chain' noNlAdj
    have hJ := joinLines_chain (M :: rest)
      (fun K hK => hne K (List.mem_cons_of_mem _ hK))
      (fun K hK => hnl K (List.mem_cons_of_mem _ hK))
      (fun K hK => hhead K (List.mem_cons_of_mem _ hK))
      (fun K hK => hlast K (List.mem_cons_of_mem _ hK))
    rw [List.chain'_append]
    refine ⟨?_, hJ, ?_⟩
    · rw [List.chain'_append]
      refine ⟨chain'_noNlAdj_of_no_nl (hnl L (by simp)), List.chain'_singleton _, ?_⟩
      intro x hx y _
      exact noNlAdj_of_nonws_left (hlast L (by simp) x hx) y
    · intro x _ y hy
      rw [joinLines_head? ['\n'] M rest (hne M (by simp))] at hy
      exact noNlAdj_of_nonws_right (hhead M (by simp) y hy) x

theorem takeWhile_eq_self_of_no_nl {L : List Char} (h : '\n' ∉ L) :
    L.takeWhile (· != '\n') = L := by
  induction L with
  | nil => rfl
  | cons a as ih =>
    rw [List.takeWhile_cons]
    have ha : a ≠ '\n' := fun he => h (by simp [he])
    rw [if_pos (by simpa using ha), ih (fun hm => h (List.mem_cons_of_mem _ hm))]

theorem takeWhile_all_append (p : Char → Bool) {A : List Char} (B : List Char)
    (h : ∀ c ∈ A, p c = true) : (A ++ B).takeWhile p = A ++ B.takeWhile p := by
  induction A with
  | nil => simp
  | cons a as ih =>
    rw [List.cons_append, List.takeWhile_cons, if_pos (h a (by simp)),
      ih (fun c hc => h c (List.mem_cons_of_mem _ hc))]
    rfl

theorem nlToComma_cons (a : Char) (l : List Char) :
    nlToComma (a :: l) = if a = '\n' then ',' :: ' ' :: nlToComma l else a :: nlToComma l :=
  rfl

theorem nlToComma_append (A B : List Char) :
    nlToComma (A ++ B) = nlToComma A ++ nlToComma B := by
  induction A with
  | nil => rfl
  | cons a as ih =>
    rw [List.cons_append, nlToComma_cons, nlToComma_cons a as]
    by_cases ha : a = '\n'
    · rw [if_pos ha, if_pos ha, ih]
      rfl
    · rw [if_neg ha, if_neg ha, ih]
      rfl

theorem nlToComma_id_of_no_nl {L : List Char} (h : '\n' ∉ L) : nlToComma L = L := by
  induction L with
  | nil => rfl
  | cons a as ih =>
    unfold nlToComma
    rw [if_neg (fun he => h (by simp [he])),
      ih (fun hm => h (List.mem_cons_of_mem _ hm))]

theorem nlToComma_joinLines :
    ∀ lines : List (List Char), (∀ L ∈ lines, '\n' ∉ L) →
    nlToComma (joinLines ['\n'] lines) = joinLines [',', ' '] lines := by
  intro lines
  match lines with
  | [] => intro _; rfl
  | [L] => intro h; exact nlToComma_id_of_no_nl (h L (by simp))
  | L :: M :: rest =>
    intro h
    show nlToComma (L ++ ['\n'] ++ joinLines ['\n'] (M :: rest))
      = L ++ [',', ' '] ++ joinLines [',', ' '] (M :: rest)
    rw [nlToComma_append, nlToComma_append,
      nlToComma_id_of_no_nl (h L (by simp)),
      nlToComma_joinLines (M :: rest) (fun K hK => h K (List.mem_cons_of_mem _ hK))]
    rfl

/-! ### Computing the caption substitution on a rejoinable input -/

theorem grabLenAux_succ (f : Nat) (R : List Char) :
    grabLenAux (f + 1) R =
      match R.drop ((R.takeWhile (· != '\n')).length) with
      | c :: d :: rest =>
        if c = '\n' ∧ d ≠ '\n'
          then (R.takeWhile (· != '\n')).length + 1 + grabLenAux f (d :: rest)
          else (R.takeWhile (· != '\n')).length
      | _ => (R.takeWhile (· != '\n')).length := rfl

theorem grabLenAux_joinLines (f : Nat) :
    ∀ lines : List (List Char), (∀ L ∈ lines, L ≠ []) →
    (∀ L ∈ lines, '\n' ∉ L) →
    (∀ L ∈ lines, ∀ c ∈ L.head?, isPySpace c = false) →
    (joinLines ['\n'] lines).length ≤ f →
    grabLenAux f (joinLines ['\n'] lines) = (joinLines ['\n'] lines).length := by
  induction f with
  | zero =>
    intro lines _ _ _ hlen
    rw [Nat.le_zero] at hlen
    rw [List.length_eq_zero.mp hlen]
    rfl
  | succ f ih =>
    intro lines hnil hnl hhead hlen
    match lines with
    | [] => rfl
    | [L] =>
      show grabLenAux (f + 1) L = L.length
      have hT : L.takeWhile (· != '\n') = L := takeWhile_eq_self_of_no_nl (hnl L (by simp))
      rw [grabLenAux_succ, hT, List.drop_length]
    | L :: M :: rest =>
      have hJform : joinLines ['\n'] (L :: M :: rest)
          = L ++ '\n' :: joinLines ['\n'] (M :: rest) := by
        show (L ++ ['\n']) ++ joinLines ['\n'] (M :: rest) = _
        rw [List.append_assoc]
        rfl
      rw [hJform]
      rw [hJform] at hlen
      have hLnl : ∀ c ∈ L, (c != '\n') = true := by
        intro c hc
        have : c ≠ '\n' := fun he => hnl L (by simp) (he ▸ hc)
        simpa using this
      have hT : (L ++ '\n' :: joinLines ['\n'] (M :: rest)).takeWhile (· != '\n') = L := by
        rw [takeWhile_all_append _ _ hLnl, List.takeWhile_cons]
        rw [if_neg (by decide)]
        rw [List.append_nil]
      have hJne : joinLines ['\n'] (M :: rest) ≠ [] :=
        joinLines_ne_nil ['\n'] (M :: rest) (by simp)
          (fun K hK => hnil K (List.mem_cons_of_mem _ hK))
      obtain ⟨j0, jr, hJ⟩ := List.exists_cons_of_ne_nil hJne
      have hj0 : isPySpace j0 = false := by
        have h1 : j0 ∈ (joinLines ['\n'] (M :: rest)).head? := by rw [hJ]; rfl
        rw [joinLines_head? ['\n'] M rest (hnil M (by simp))] at h1
        exact hhead M (by simp) j0 h1
      have hj0ne : j0 ≠ '\n' := by
        intro he
        rw [he] at hj0
        exact absurd hj0 (by decide)
      rw [grabLenAux_succ, hT, List.drop_left, hJ]
      show (if '\n' = '\n' ∧ j0 ≠ '\n'
          then L.length + 1 + grabLenAux f (j0 :: jr)
          else L.length) = (L ++ '\n' :: j0 :: jr).length
      rw [if_pos ⟨rfl, hj0ne⟩]
      have hrec : grabLenAux f (j0 :: jr) = (j0 :: jr).length := by
        have := ih (M :: rest)
          (fun K hK => hnil K (List.mem_cons_of_mem _ hK))
          (fun K hK => hnl K (List.mem_cons_of_mem _ hK))
          (fun K hK => hhead K (List.mem_cons_of_mem _ hK))
          (by
            rw [hJ]
            rw [hJ] at hlen
            simp only [List.length_append, List.length_cons] at hlen ⊢
            omega)
        rw [hJ] at this
        exact this
      rw [hrec]
      simp only [List.length_append, List.length_cons]
      omega

theorem grabLen_joinLines (lines : List (List Char))
    (hnil : ∀ L ∈ lines, L ≠ []) (hnl : ∀ L ∈ lines, '\n' ∉ L)
    (hhead : ∀ L ∈ lines, ∀ c ∈ L.head?, isPySpace c = false) :
    grabLen (joinLines ['\n'] lines) = (joinLines ['\n'] lines).length :=
  grabLenAux_joinLines _ lines hnil hnl hhead le_rfl

theorem nlOkAt_one_none {j0 : Char} (jr : List Char) (hj0ne : j0 ≠ '\n') :
    nlOkAt ('\n' :: j0 :: jr) 1 = none := by
  cases jr with
  | nil => rfl
  | cons d rest =>
    show (if j0 = '\n' ∧ d ≠ '\n' then some 2 else none) = none
    rw [if_neg (fun h => hj0ne h.1)]

theorem nlOkAt_zero_some {j0 : Char} (jr : List Char) (hj0ne : j0 ≠ '\n') :
    nlOkAt ('\n' :: j0 :: jr) 0 = some 1 := by
  show (if '\n' = '\n' ∧ j0 ≠ '\n' then some 1 else none) = some 1
  rw [if_pos ⟨rfl, hj0ne⟩]

theorem tryNlDesc_one {j0 : Char} (jr : List Char) (hj0ne : j0 ≠ '\n') :
    tryNlDesc ('\n' :: j0 :: jr) 1 = some 1 := by
  show (match nlOkAt ('\n' :: j0 :: jr) 1 with
    | some n => some n
    | none => tryNlDesc ('\n' :: j0 :: jr) 0) = some 1
  rw [nlOkAt_one_none jr hj0ne]
  show tryNlDesc ('\n' :: j0 :: jr) 0 = some 1
  exact nlOkAt_zero_some jr hj0ne

theorem sepConsumed_colon_nl (j0 : Char) (jr : List Char) (hj : isPySpace j0 = false) :
    sepConsumed (':' :: '\n' :: j0 :: jr) = some 2 := by
  have hj0ne : j0 ≠ '\n' := by
    intro he
    rw [he] at hj
    exact absurd hj (by decide)
  have hjws : ¬(isPySpace j0 = true) := by rw [hj]; decide
  have hT : (':' :: '\n' :: j0 :: jr).takeWhile isPySpace = [] := by
    rw [List.takeWhile_cons, if_neg (by decide)]
  have hT2 : ('\n' :: j0 :: jr).takeWhile isPySpace = ['\n'] := by
    rw [List.takeWhile_cons, if_pos (by decide), List.takeWhile_cons, if_neg hjws]
  have hP : sepPunct (':' :: '\n' :: j0 :: jr) = some 2 := by
    unfold sepPunct
    rw [hT]
    show (if (':' = ':' ∨ ':' = '-') then
        (tryNlDesc ('\n' :: j0 :: jr)
          ((('\n' :: j0 :: jr).takeWhile isPySpace).length)).map
          (fun n => ([] : List Char).length + 1 + n)
      else none) = some 2
    rw [if_pos (Or.inl rfl), hT2]
    show (tryNlDesc ('\n' :: j0 :: jr) 1).map (fun n => 0 + 1 + n) = some 2
    rw [tryNlDesc_one jr hj0ne]
    rfl
  unfold sepConsumed
  rw [hP]

theorem matchCaptionAt_qq (j0 : Char) (jr : List Char) (hj : isPySpace j0 = false) :
    matchCaptionAt queQuanPats ("Quê quán".toList ++ ':' :: '\n' :: j0 :: jr)
      = some ("Quê quán".toList ++ ':' :: ' ' ::
          nlToComma (pyStrip ((j0 :: jr).take (grabLen (j0 :: jr)))),
        "Quê quán".toList.length + 2 + grabLen (j0 :: jr)) := by
  unfold matchCaptionAt queQuanPats
  rw [List.findSome?_cons]
  simp only [ciBegins_refl_append, if_true, List.drop_left,
    sepConsumed_colon_nl j0 jr hj, List.take_left]
  rfl

theorem reSubCaptionAux_nil (pats : List (List Char)) (f : Nat) :
    reSubCaptionAux pats f [] = [] := by
  cases f <;> rfl

theorem reSubCaptionAux_succ_match (pats : List (List Char)) (f : Nat) (c : Char)
    (cs repl : List Char) (k : Nat) (h : matchCaptionAt pats (c :: cs) = some (repl, k)) :
    reSubCaptionAux pats (f + 1) (c :: cs)
      = repl ++ reSubCaptionAux pats f (cs.drop (k - 1)) := by
  show (match matchCaptionAt pats (c :: cs) with
    | some (repl, k) => repl ++ reSubCaptionAux pats f (cs.drop (k - 1))
    | none => c :: reSubCaptionAux pats f cs) = _
  rw [h]

theorem reSubCaption_qq (J : List Char) (hJne : J ≠ [])
    (hJhead : ∀ c ∈ J.head?, isPySpace c = false)
    (hg : grabLen J = J.length) :
    reSubCaption queQuanPats ("Quê quán".toList ++ ':' :: '\n' :: J)
      = "Quê quán".toList ++ ':' :: ' ' :: nlToComma (pyStrip J) := by
  obtain ⟨j0, jr, rfl⟩ := List.exists_cons_of_ne_nil hJne
  have hj : isPySpace j0 = false := hJhead j0 rfl
  have hc : ("Quê quán".toList ++ ':' :: '\n' :: j0 :: jr)
      = 'Q' :: ("uê quán".toList ++ ':' :: '\n' :: j0 :: jr) := rfl
  have hm := matchCaptionAt_qq j0 jr hj
  rw [hc] at hm
  unfold reSubCaption
  rw [hc, List.length_cons,
    reSubCaptionAux_succ_match queQuanPats _ 'Q' _ _ _ hm]
  have hdrop : ("uê quán".toList ++ ':' :: '\n' :: j0 :: jr).drop
      ("Quê quán".toList.length + 2 + grabLen (j0 :: jr) - 1) = [] := by
    apply List.drop_eq_nil_of_le
    rw [hg]
    have h7 : ("uê quán".toList).length = 7 := by decide
    have h8 : ("Quê quán".toList).length = 8 := by decide
    simp only [List.length_append, List.length_cons, h7, h8]
    omega
  rw [hdrop, reSubCaptionAux_nil, List.append_nil, hg, List.take_length]

/-- C6 (counterexample): the caption rejoin of `preprocess_ocr_text` does NOT
stop before the next labeled field.  On the text
`"Quê quán:\nHà Nội\nNơi thường trú:\nPhú Thượng"` the greedy group of the
`Quê quán` regex consumes the `Nơi thường trú` caption and its line as well,
gluing everything into one comma-joined line, instead of producing the
claimed `"Quê quán: Hà Nội\nNơi thường trú: Phú Thượng"`. -/
theorem caption_rejoin_cex :
    preprocess_ocr_text "Quê quán:\nHà Nội\nNơi thường trú:\nPhú Thượng"
      = "Quê quán: Hà Nội, Nơi thường trú:, Phú Thượng" ∧
    preprocess_ocr_text "Quê quán:\nHà Nội\nNơi thường trú:\nPhú Thượng"
      ≠ "Quê quán: Hà Nội\nNơi thường trú: Phú Thượng" :=
  ⟨by decide, by decide⟩

/-- C6 (amended): when the caption `Quê quán` heads the (stage-1-normalized)
text, followed by a colon, a line break and a list of non-empty
newline-free lines ending and starting in non-whitespace, the preprocessor
rejoins the caption with ALL the following lines — to the very end of the
text, including any subsequent labeled field — as
`"Quê quán: <line1>, <line2>, ..."`.  (The hypothesis `hgt` states that the
label-fix stage leaves this text unchanged, which holds whenever no
`Giới tinh` misread occurs in it.) -/
theorem caption_rejoin_amended (lines : List (List Char))
    (hne : lines ≠ [])
    (hnil : ∀ L ∈ lines, L ≠ [])
    (hnl : ∀ L ∈ lines, '\n' ∉ L)
    (hhead : ∀ L ∈ lines, ∀ c ∈ L.head?, isPySpace c = false)
    (hlast : ∀ L ∈ lines, ∀ c ∈ L.getLast?, isPySpace c = false)
    (hgt : reSubCI gioiTinhPat gioiTinhRep
        ("Quê quán".toList ++ ':' :: '\n' :: joinLines ['\n'] lines)
      = "Quê quán".toList ++ ':' :: '\n' :: joinLines ['\n'] lines) :
    preprocess_ocr_textL ("Quê quán".toList ++ ':' :: '\n' :: joinLines ['\n'] lines)
      = "Quê quán".toList ++ ':' :: ' ' :: joinLines [',', ' '] lines := by
  obtain ⟨L, rest, rfl⟩ := List.exists_cons_of_ne_nil hne
  set J := joinLines ['\n'] (L :: rest) with hJdef
  set C := joinLines [',', ' '] (L :: rest) with hCdef
  have hJne : J ≠ [] := by
    rw [hJdef]
    exact joinLines_ne_nil ['\n'] (L :: rest) (by simp) hnil
  have hJhead : ∀ c ∈ J.head?, isPySpace c = false := by
    intro c hc
    rw [hJdef, joinLines_head? ['\n'] L rest (hnil L (by simp))] at hc
    exact hhead L (by simp) c hc
  have hJlast : ∀ c ∈ J.getLast?, isPySpace c = false := by
    intro c hc
    rw [hJdef] at hc
    exact joinLines_getLast_nonws ['\n'] (L :: rest) hnil hlast c hc
  have hJchain : J.Chain' noNlAdj := by
    rw [hJdef]
    exact joinLines_chain (L :: rest) hnil hnl hhead hlast
  have hh : ∀ c ∈ ("Quê quán".toList ++ ':' :: '\n' :: J).head?, isPySpace c = false := by
    intro c hc
    have h1 : ("Quê quán".toList ++ ':' :: '\n' :: J).head? = some 'Q' := rfl
    rw [h1, Option.mem_some_iff] at hc
    rw [← hc]
    decide
  have hl : ∀ c ∈ ("Quê quán".toList ++ ':' :: '\n' :: J).getLast?, isPySpace c = false := by
    intro c hc
    have h2 : ("Quê quán".toList ++ ':' :: '\n' :: J).getLast? = J.getLast? := by
      rw [getLast?_append_of_ne_nil (by simp), List.getLast?_cons_cons]
      obtain ⟨j0, jr, hJ⟩ := List.exists_cons_of_ne_nil hJne
      rw [hJ, List.getLast?_cons_cons]
    rw [h2] at hc
    exact hJlast c hc
  have hstrip1 : pyStrip ("Quê quán".toList ++ ':' :: '\n' :: J)
      = "Quê quán".toList ++ ':' :: '\n' :: J := pyStrip_eq_self hh hl
  have hch : ("Quê quán:".toList ++ '\n' :: J).Chain' noNlAdj := by
    rw [List.chain'_append]
    refine ⟨chain'_noNlAdj_of_no_nl (by decide), ?_, ?_⟩
    · rw [List.chain'_cons']
      refine ⟨?_, hJchain⟩
      intro y hy
      exact noNlAdj_of_nonws_right (hJhead y hy) '\n'
    · intro x hx y _
      have hgl : ("Quê quán:".toList).getLast? = some ':' := by decide
      rw [hgl, Option.mem_some_iff] at hx
      rw [← hx]
      exact noNlAdj_of_nonws_left (by decide) y
  have hchain : ("Quê quán".toList ++ ':' :: '\n' :: J).Chain' noNlAdj := hch
  have hnorm : normNewlines ("Quê quán".toList ++ ':' :: '\n' :: J)
      = "Quê quán".toList ++ ':' :: '\n' :: J := normNewlines_id hchain
  have hg : grabLen J = J.length := by
    rw [hJdef]
    exact grabLen_joinLines (L :: rest) hnil hnl hhead
  have hqq := reSubCaption_qq J hJne hJhead hg
  have hpsJ : pyStrip J = J := pyStrip_eq_self hJhead hJlast
  have hcomma : nlToComma J = C := by
    rw [hJdef, hCdef]
    exact nlToComma_joinLines (L :: rest) hnl
  have hCne : C ≠ [] := by
    rw [hCdef]
    exact joinLines_ne_nil [',', ' '] (L :: rest) (by simp) hnil
  have hCnl : '\n' ∉ C := by
    rw [hCdef]
    exact joinLines_no_nl [',', ' '] (by decide) (L :: rest) hnl
  have hono : '\n' ∉ ("Quê quán".toList ++ ':' :: ' ' :: C) := by
    intro hm
    rcases List.mem_append.mp hm with h1 | h1
    · exact absurd h1 (by decide)
    · rcases List.mem_cons.mp h1 with he | h1
      · exact absurd he (by decide)
      · rcases List.mem_cons.mp h1 with he | h1
        · exact absurd he (by decide)
        · exact hCnl h1
  have hntt : reSubCaption noiThuongTruPats ("Quê quán".toList ++ ':' :: ' ' :: C)
      = "Quê quán".toList ++ ':' :: ' ' :: C := reSubCaption_no_nl _ hono
  have hhdr : reSubHeader ("Quê quán".toList ++ ':' :: ' ' :: C)
      = "Quê quán".toList ++ ':' :: ' ' :: C := reSubHeader_no_nl hono
  have hh3 : ∀ c ∈ ("Quê quán".toList ++ ':' :: ' ' :: C).head?, isPySpace c = false := by
    intro c hc
    have h1 : ("Quê quán".toList ++ ':' :: ' ' :: C).head? = some 'Q' := rfl
    rw [h1, Option.mem_some_iff] at hc
    rw [← hc]
    decide
  have hl3 : ∀ c ∈ ("Quê quán".toList ++ ':' :: ' ' :: C).getLast?, isPySpace c = false := by
    intro c hc
    have h2 : ("Quê quán".toList ++ ':' :: ' ' :: C).getLast? = C.getLast? := by
      rw [getLast?_append_of_ne_nil (by simp), List.getLast?_cons_cons]
      obtain ⟨c0, cr, hC⟩ := List.exists_cons_of_ne_nil hCne
      rw [hC, List.getLast?_cons_cons]
    rw [h2] at hc
    rw [hCdef] at hc
    exact joinLines_getLast_nonws [',', ' '] (L :: rest) hnil hlast c hc
  have hstrip2 : pyStrip ("Quê quán".toList ++ ':' :: ' ' :: C)
      = "Quê quán".toList ++ ':' :: ' ' :: C := pyStrip_eq_self hh3 hl3
  unfold preprocess_ocr_textL
  rw [hstrip1, hnorm, hgt, hqq, hpsJ, hcomma, hntt, hhdr, hstrip2]

/-- Witness for C6 (amended) at a concrete three-line caption body. -/
theorem caption_rejoin_amended_witness :
    preprocess_ocr_textL ("Quê quán".toList ++ ':' :: '\n' ::
        joinLines ['\n'] ["Hà Nội".toList, "Nơi thường trú:".toList, "Phú Thượng".toList])
      = "Quê quán".toList ++ ':' :: ' ' ::
        joinLines [',', ' '] ["Hà Nội".toList, "Nơi thường trú:".toList, "Phú Thượng".toList] :=
  caption_rejoin_amended ["Hà Nội".toList, "Nơi thường trú:".toList, "Phú Thượng".toList]
    (by decide) (by decide) (by decide) (by decide) (by decide) (by decide)
